import Mathlib

/- Verification development for data_provider.py: the batching, shuffling,
truncation, fold-splitting and compressed-sensing logic of the generic
DataProvider and the ASSISTDataProvider classes, modelled as pure functions
over lists. -/

namespace DKT

/-- Numpy fancy indexing xs[p]: the elements of xs at the positions listed
in p, in that order.  Positions out of range contribute nothing (in numpy
they raise; every use in the source indexes with valid positions, which the
theorems assume as hypotheses). -/
def applyPerm {α : Type} (p : List Nat) (xs : List α) : List α :=
  p.filterMap fun i => xs[i]?

/-- Models np.argsort applied to the permutation array stored in
current_order.  current_order is always a duplicate-free array whose values
are exactly 0..n-1 (it starts as arange(n) and is only ever permuted), so
the sorting index array is unique regardless of sort stability: at position
v it holds the index where value v occurs. -/
def argsort (p : List Nat) : List Nat :=
  (List.range p.length).map fun v => List.indexOf v p

/-- Recursion worker for chunkList.  The fuel argument only bounds the
recursion depth (each chunk consumes at least one element when t is not 0)
and is always called with at least the list's length, which
chunkListAux_fuel shows makes its value irrelevant. -/
def chunkListAux {α : Type} (t : Nat) : Nat → List α → List (List α)
  | _, [] => []
  | 0, _ :: _ => []
  | fuel + 1, x :: xs' =>
      ((x :: xs').take t) :: chunkListAux t fuel ((x :: xs').drop t)

/-- Splits xs into consecutive chunks of size t, the final chunk possibly
shorter.  Chunk size 0 gives [] (the source never chunks with size 0:
Python range with step 0 raises). -/
def chunkList {α : Type} (t : Nat) (xs : List α) : List (List α) :=
  if t = 0 then [] else chunkListAux t xs.length xs

/-- Models x[np.nonzero(mask)]: keep the entries of xs whose mask entry is
true. -/
def selectByMask {α : Type} (mask : List Bool) (xs : List α) : List α :=
  ((mask.zip xs).filter fun e => e.1).map fun e => e.2

/-- State of the generic DataProvider class.  inputs and targets are the
row lists; rng models the np.random.RandomState as the stream of
permutations its permutation method will return (headD defaults to the
identity when the modelled stream is exhausted); maxNumBatches is the
Python int, -1 or positive after validation. -/
structure DataProvider (α β : Type) where
  inputs : List α
  targets : List β
  batchSize : Nat
  maxNumBatches : Int
  numBatches : Nat
  shuffleOrder : Bool
  currentOrder : List Nat
  currBatch : Nat
  rng : List (List Nat)

/-- DataProvider._update_num_batches: possible_num_batches is the integer
division of the row count by batch_size; num_batches caps it by
max_num_batches unless that is -1. -/
def DataProvider.updateNumBatches {α β : Type} (s : DataProvider α β) :
    DataProvider α β :=
  let possible := s.inputs.length / s.batchSize
  { s with numBatches :=
      if s.maxNumBatches = -1 then possible
      else min s.maxNumBatches.toNat possible }

/-- Permutation the modelled rng returns for the next shuffle. -/
def DataProvider.nextPerm {α β : Type} (s : DataProvider α β) : List Nat :=
  s.rng.headD (List.range s.inputs.length)

/-- DataProvider.shuffle: draw a permutation, apply it to inputs, targets
and current_order, consume the rng draw. -/
def DataProvider.shuffle {α β : Type} (s : DataProvider α β) :
    DataProvider α β :=
  let p := s.nextPerm
  { s with inputs := applyPerm p s.inputs,
           targets := applyPerm p s.targets,
           currentOrder := applyPerm p s.currentOrder,
           rng := s.rng.tail }

/-- DataProvider.new_epoch: reset the batch cursor and reshuffle when
shuffle_order is set. -/
def DataProvider.newEpoch {α β : Type} (s : DataProvider α β) :
    DataProvider α β :=
  let s' := { s with currBatch := 0 }
  if s.shuffleOrder then s'.shuffle else s'

/-- DataProvider.reset: inverse-permute inputs, targets and current_order
by argsort(current_order), then start a new epoch. -/
def DataProvider.reset {α β : Type} (s : DataProvider α β) :
    DataProvider α β :=
  let invPerm := argsort s.currentOrder
  DataProvider.newEpoch
    { s with inputs := applyPerm invPerm s.inputs,
             targets := applyPerm invPerm s.targets,
             currentOrder := applyPerm invPerm s.currentOrder }

/-- DataProvider.next: StopIteration (modelled as none, after new_epoch has
run) when the cursor is past num_batches, otherwise the slice
[curr_batch*batch_size, (curr_batch+1)*batch_size) of inputs and targets
and an advanced cursor. -/
def DataProvider.next {α β : Type} (s : DataProvider α β) :
    Option (List α × List β) × DataProvider α β :=
  if s.numBatches < s.currBatch + 1 then
    (none, s.newEpoch)
  else
    (some ((s.inputs.drop (s.currBatch * s.batchSize)).take s.batchSize,
           (s.targets.drop (s.currBatch * s.batchSize)).take s.batchSize),
     { s with currBatch := s.currBatch + 1 })

/-- Row indices covered by batch j: the slice
[j*batch_size, (j+1)*batch_size). -/
def batchIndices (batchSize j : Nat) : List Nat :=
  List.range' (j * batchSize) batchSize

/-- State of ASSISTDataProvider: the base provider fields (an inputs row is
a student's flattened max_num_ans*encoding_dim feature vector, a targets
row is the student's list of labels) plus the parallel target_ids rows (a
student's flattened max_num_ans*max_prob_set_id identifier block) and the
dataset scalars.  Numeric entries are modelled as integers; only their
zero/nonzero pattern and positions matter to the claims. -/
structure ASSISTDataProvider extends DataProvider (List Int) (List Int) where
  targetIds : List (List Int)
  maxNumAns : Nat
  maxProbSetId : Nat
  encodingDim : Nat

/-- ASSISTDataProvider.shuffle: like the base shuffle but carrying
target_ids through the same permutation. -/
def ASSISTDataProvider.shuffle (s : ASSISTDataProvider) :
    ASSISTDataProvider :=
  let p := s.nextPerm
  { s with inputs := applyPerm p s.inputs,
           targets := applyPerm p s.targets,
           currentOrder := applyPerm p s.currentOrder,
           targetIds := applyPerm p s.targetIds,
           rng := s.rng.tail }

/-- new_epoch as it runs on an ASSISTDataProvider: the inherited body
dispatches to the overridden shuffle. -/
def ASSISTDataProvider.newEpoch (s : ASSISTDataProvider) :
    ASSISTDataProvider :=
  let s' := { s with currBatch := 0 }
  if s.shuffleOrder then s'.shuffle else s'

/-- ASSISTDataProvider.reset: like the base reset but carrying target_ids
through the same inverse permutation. -/
def ASSISTDataProvider.reset (s : ASSISTDataProvider) :
    ASSISTDataProvider :=
  let invPerm := argsort s.currentOrder
  ASSISTDataProvider.newEpoch
    { s with inputs := applyPerm invPerm s.inputs,
             targets := applyPerm invPerm s.targets,
             currentOrder := applyPerm invPerm s.currentOrder,
             targetIds := applyPerm invPerm s.targetIds }

/-- ASSISTDataProvider.transform_batch: batch_inputs is the densified input
slice reshaped to [batch_size, max_num_ans, encoding_dim] (a shape
annotation over the same row data, kept here as the list of rows);
batch_targets flattens the list of per-student label lists; batch_target_ids
densifies the id slice and flattens it across the whole slice.  Returns
(batch_inputs, batch_target_ids, batch_targets) in the source's order. -/
def ASSISTDataProvider.transformBatch
    (inputsBatch targetIdsBatch targetsBatch : List (List Int)) :
    List (List Int) × List Int × List Int :=
  (inputsBatch, targetIdsBatch.flatten, targetsBatch.flatten)

/-- ASSISTDataProvider.next: the inherited epoch logic, slicing target_ids
alongside inputs and targets and returning the transformed triple
(batch_inputs, batch_targets, batch_target_ids). -/
def ASSISTDataProvider.next (s : ASSISTDataProvider) :
    Option (List (List Int) × List Int × List Int) × ASSISTDataProvider :=
  if s.numBatches < s.currBatch + 1 then
    (none, s.newEpoch)
  else
    let a := s.currBatch * s.batchSize
    let t := ASSISTDataProvider.transformBatch
      ((s.inputs.drop a).take s.batchSize)
      ((s.targetIds.drop a).take s.batchSize)
      ((s.targets.drop a).take s.batchSize)
    (some (t.1, t.2.2, t.2.1), { s with currBatch := s.currBatch + 1 })

/-- ASSISTDataProvider.reduce_data: keep only the first
int(rows * fraction) rows of inputs, targets and target_ids (int()
truncates; for the nonnegative products involved this is the floor). -/
def reduceData (inputs targets targetIds : List (List Int)) (fraction : ℚ) :
    List (List Int) × List (List Int) × List (List Int) :=
  let numData := (Int.floor ((inputs.length : ℚ) * fraction)).toNat
  (inputs.take numData, targets.take numData, targetIds.take numData)

/-- True when an entry of the row is nonzero (one cell of the numpy mask
new_x != 0). -/
def rowNonzero (r : List Int) : Bool := r.any fun x => x != 0

/-- np.max over a threshold-by-final_dim chunk of the mask new_x != 0:
true when any entry of any row of the chunk is nonzero. -/
def groupNonzero (g : List (List Int)) : Bool := g.any rowNonzero

/-- All-zero padding row of width d, as produced by np.pad with constant
value 0. -/
def zeroRow (d : Nat) : List Int := List.replicate d 0

/-- Per-student chunking step of _truncate_inputs_or_ids: reshape the
student's flat row to [max_num_ans, final_dim], right-pad the answer axis
with threshold - max_num_ans % threshold zero rows (note this pads a full
extra all-zero chunk when threshold divides max_num_ans, exactly as np.pad
is called), and split into threshold-row chunks. -/
def rowGroups (maxNumAns finalDim t : Nat) (flat : List Int) :
    List (List (List Int)) :=
  chunkList t (chunkList finalDim flat ++
    List.replicate (t - maxNumAns % t) (zeroRow finalDim))

/-- One 1000-student block of _truncate_inputs_or_ids: chunk every row of
the block (the block-level reshape to [-1, threshold, final_dim] is the
concatenation of the per-row chunkings since every padded row divides
evenly), build the non-empty mask with np.max(new_x != 0, axis=(1,2)),
select the masked chunks with np.nonzero fancy indexing, and flatten each
surviving chunk back into a row of the new sparse matrix.  When the block
retains no chunk (num_effective_students = 0), the final
new_x.reshape(num_effective_students, -1) cannot infer the -1 dimension
for a size-0 array and numpy raises ValueError. -/
def truncBlock (maxNumAns finalDim t : Nat) (blk : List (List Int)) :
    Except String (List (List Int)) :=
  let groups := blk.flatMap (rowGroups maxNumAns finalDim t)
  let mask := groups.map groupNonzero
  let kept := selectByMask mask groups
  if kept.length = 0 then .error "ValueError"
  else .ok (kept.map List.flatten)

/-- The per-block loop of _truncate_inputs_or_ids, accumulating
list_of_truncated_seqs; the first failing block raises. -/
def truncBlocks (maxNumAns finalDim t : Nat) :
    List (List (List Int)) → Except String (List (List (List Int)))
  | [] => .ok []
  | blk :: rest => do
      let r ← truncBlock maxNumAns finalDim t blk
      let rs ← truncBlocks maxNumAns finalDim t rest
      return r :: rs

/-- ASSISTDataProvider._truncate_inputs_or_ids: process the rows in blocks
of 1000 students and concatenate (sp.vstack) the per-block results.  With
no rows at all the loop body never runs and sp.vstack([]) raises
ValueError (bmat requires a 2-D block structure). -/
def truncateInputsOrIds (maxNumAns finalDim t : Nat)
    (rows : List (List Int)) : Except String (List (List Int)) := do
  let blocks := chunkList 1000 rows
  match blocks with
  | [] => .error "ValueError"
  | _ :: _ => do
      let results ← truncBlocks maxNumAns finalDim t blocks
      return results.flatten

/-- ASSISTDataProvider._truncate_targets: slice each student's label list
into consecutive threshold-sized pieces (student[i:i+threshold] for i in
range(0, len, threshold)), appending them student-major. -/
def truncateTargets (t : Nat) (targets : List (List Int)) :
    List (List Int) :=
  targets.flatMap (chunkList t)

/-- ASSISTDataProvider.truncate_sequences: cap the threshold at
max_num_ans, truncate inputs (final dim encoding_dim), then target_ids
(final dim max_prob_set_id), then targets, and return them with the
effective threshold; a ValueError raised while truncating inputs or
target_ids propagates in that order. -/
def truncateSequences (maxNumAns encodingDim maxProbSetId : Nat)
    (inputs targetIds targets : List (List Int)) (threshold : Nat) :
    Except String
      (List (List Int) × List (List Int) × List (List Int) × Nat) := do
  let t := min maxNumAns threshold
  let inputs' ← truncateInputsOrIds maxNumAns encodingDim t inputs
  let targetIds' ← truncateInputsOrIds maxNumAns maxProbSetId t targetIds
  let targets' := truncateTargets t targets
  return (inputs', targetIds', targets', t)

/-- Well-formedness of one student's stored block (inputs or target_ids)
relative to their valid-answer count m: the flat row has the full
max_num_ans * final_dim width, and exactly the first m of its max_num_ans
final_dim-wide answer rows are nonzero (each valid answer has a nonzero
encoding, the right-padding is zero).  This is the property the on-disk
encodings establish and the condition under which truncation keeps the
three arrays aligned. -/
def prefixValid (maxNumAns finalDim m : Nat) (flat : List Int) : Prop :=
  flat.length = maxNumAns * finalDim ∧
  ∀ j, j < maxNumAns →
    (rowNonzero ((chunkList finalDim flat).getD j []) = true ↔ j < m)

/-- Fold sizes of sklearn KFold(n_splits=k) without shuffling, as
documented: the first n % k folds have size n / k + 1, the remaining folds
have size n / k, over contiguous index blocks. -/
def foldSize (n k i : Nat) : Nat := n / k + if i < n % k then 1 else 0

/-- Start offset of fold i: the total size of the preceding folds. -/
def foldStart (n k i : Nat) : Nat := i * (n / k) + min i (n % k)

/-- Validation row indices of fold i: the contiguous block starting at
foldStart of length foldSize. -/
def valIndices (n k i : Nat) : List Nat :=
  List.range' (foldStart n k i) (foldSize n k i)

/-- Training row indices of fold i: the complement of the validation block
within 0..n-1, in increasing order, as sklearn returns it. -/
def trainIndices (n k i : Nat) : List Nat :=
  (List.range n).filter fun r => decide (r ∉ valIndices n k i)

/-- The k (train-rows, validation-rows) selections _get_k_folds makes: for
each fold, fancy-index inputs, targets and target_ids by the fold's train
and validation index arrays. -/
def kFoldSelections (k : Nat) (inputs targets targetIds : List (List Int)) :
    List ((List (List Int) × List (List Int) × List (List Int)) ×
          (List (List Int) × List (List Int) × List (List Int))) :=
  (List.range k).map fun i =>
    ((applyPerm (trainIndices inputs.length k i) inputs,
      applyPerm (trainIndices inputs.length k i) targets,
      applyPerm (trainIndices inputs.length k i) targetIds),
     (applyPerm (valIndices inputs.length k i) inputs,
      applyPerm (valIndices inputs.length k i) targets,
      applyPerm (valIndices inputs.length k i) targetIds))

/-- Path of the training split's artifacts:
data_dir/assist{year}-train. -/
def trainPath (dataDir whichYear : String) : String :=
  dataDir ++ "/assist" ++ whichYear ++ "-train"

/-- Lookup of a stored artifact in a modelled file store (a list of
path-content pairs); none models the FileNotFoundError np.load raises. -/
def fsLookup {γ : Type} (fs : List (String × γ)) (p : String) : Option γ :=
  (fs.find? fun e => e.1 == p).map fun e => e.2

/-- Dot product of an encoding_dim-long answer segment with column j of
the compression matrix. -/
def dotCol (r : List Int) (m : List (List Int)) (j : Nat) : Int :=
  ((r.zip m).map fun e => e.1 * e.2.getD j 0).sum

/-- ASSISTDataProvider.compress_inputs: densify, reshape to
(-1, encoding_dim), right-multiply by the compression matrix and reshape
back to one row per student; per student this maps each encoding_dim-long
answer segment to its compress_dim-long projection. -/
def compressInputs (encodingDim compressDim : Nat) (m : List (List Int))
    (inputs : List (List Int)) : List (List Int) :=
  inputs.map fun flat =>
    (chunkList encodingDim flat).flatMap fun seg =>
      (List.range compressDim).map fun j => dotCol seg m j

/-- ASSISTDataProvider.apply_compressed_sensing: on the test split, load
the projection matrix persisted at the TRAIN split's path (np.load raises
FileNotFoundError when it is absent — there is no fallback generation); on
the train split, draw a fresh encoding_dim-by-100 matrix (modelled by the
freshMatrix argument, the value rng.randn returns) and persist it with
np.savez before applying it.  Returns the compressed inputs, the matrix,
the new compression dimension and the updated file store.  Any other
which_set would leave compress_matrix unset and crash inside
compress_inputs (unreachable, _validate_inputs has already checked the
selector); modelled as an error. -/
def applyCompressedSensing (fs : List (String × List (List Int)))
    (dataDir whichYear whichSet : String) (encodingDim : Nat)
    (freshMatrix : List (List Int)) (inputs : List (List Int)) :
    Except String
      (List (List Int) × List (List Int) × Nat ×
       List (String × List (List Int))) :=
  let tp := trainPath dataDir whichYear
  if whichSet = "test" then
    match fsLookup fs (tp ++ "-compression-matrix.npz") with
    | none => .error "FileNotFoundError"
    | some m =>
        let compressDim := (m.headD []).length
        .ok (compressInputs encodingDim compressDim m inputs, m,
             compressDim, fs)
  else if whichSet = "train" then
    let compressDim := 100
    let fs' := (tp ++ "-compression-matrix.npz", freshMatrix) :: fs
    .ok (compressInputs encodingDim compressDim freshMatrix inputs,
         freshMatrix, compressDim, fs')
  else .error "AttributeError"

/-- Contents of one modelled .npz artifact: the scalars and arrays the
loader can read from it (fields irrelevant to a given file are unused). -/
structure FileBlob where
  maxNumAns : Nat
  maxProbSetId : Nat
  targets : List (List Int)
  rows : List (List Int)
deriving DecidableEq

/-- Pre-built fold data bundle: the data argument of the constructor and
the payload the provider's construction selects. -/
structure FoldData where
  inputs : List (List Int)
  targets : List (List Int)
  targetIds : List (List Int)
  maxNumAns : Nat
  maxProbSetId : Nat
  encodingDim : Nat
deriving DecidableEq

/-- np.load / sp.load_npz of one artifact: FileNotFoundError when the path
is absent from the store. -/
def loadNpz (fs : List (String × FileBlob)) (p : String) :
    Except String FileBlob :=
  match fsLookup fs p with
  | none => .error "FileNotFoundError"
  | some b => .ok b

/-- ASSISTDataProvider.load_data: read the targets blob (max_num_ans,
max_prob_set_id and the targets array), the sparse inputs matrix in the
encoding selected by use_plus_minus_feats together with the corresponding
encoding_dim, and the target_ids matrix.  Returns
(inputs, targets, target_ids, max_num_ans, max_prob_set_id,
encoding_dim). -/
def loadData (fs : List (String × FileBlob)) (dataPath : String)
    (usePlusMinusFeats : Bool) :
    Except String (List (List Int) × List (List Int) × List (List Int) ×
      Nat × Nat × Nat) := do
  let tblob ← loadNpz fs (dataPath ++ "-targets.npz")
  if usePlusMinusFeats then
    let iblob ← loadNpz fs (dataPath ++ "-inputs-plus-minus.npz")
    let idblob ← loadNpz fs (dataPath ++ "-targetids.npz")
    return (iblob.rows, tblob.targets, idblob.rows, tblob.maxNumAns,
      tblob.maxProbSetId, tblob.maxProbSetId + 1)
  else
    let iblob ← loadNpz fs (dataPath ++ "-inputs.npz")
    let idblob ← loadNpz fs (dataPath ++ "-targetids.npz")
    return (iblob.rows, tblob.targets, idblob.rows, tblob.maxNumAns,
      tblob.maxProbSetId, 2 * tblob.maxProbSetId + 1)

/-- ASSISTDataProvider._validate_inputs: assert the split and year
selectors and the existence of the -inputs.npz and -targets.npz artifacts
at the derived data path (Python assert raises AssertionError). -/
def validateInputs (fs : List (String × FileBlob))
    (whichSet whichYear dataPath : String) : Except String Unit :=
  if ¬ (whichSet = "train" ∨ whichSet = "test") then
    .error "AssertionError"
  else if ¬ (whichYear = "09" ∨ whichYear = "15") then
    .error "AssertionError"
  else if (fsLookup fs (dataPath ++ "-inputs.npz")).isNone then
    .error "AssertionError"
  else if (fsLookup fs (dataPath ++ "-targets.npz")).isNone then
    .error "AssertionError"
  else .ok ()

/-- Data-selection phase of ASSISTDataProvider.__init__: derive the data
path, validate selectors and file existence, then either take the
pre-built fold bundle as-is (data argument not None — the data files are
never read on this branch) or load from disk, reduce by fraction and
optionally apply compressed sensing.  The .npz artifacts live in two typed
stores (blob files and compression matrices); expanduser is omitted, so
data_dir stands for the already-expanded directory. -/
def assistInitData (fs : List (String × FileBlob))
    (csStore : List (String × List (List Int)))
    (dataDir whichSet whichYear : String) (fraction : ℚ)
    (usePlusMinusFeats useCompressedSensing : Bool)
    (freshMatrix : List (List Int)) (data : Option FoldData) :
    Except String FoldData := do
  let dataPath := dataDir ++ "/assist" ++ whichYear ++ "-" ++ whichSet
  let _ ← validateInputs fs whichSet whichYear dataPath
  match data with
  | some d => return d
  | none =>
      let (inputs, targets, targetIds, maxNumAns, maxProbSetId,
        encodingDim) ← loadData fs dataPath usePlusMinusFeats
      let (inputs, targets, targetIds) :=
        reduceData inputs targets targetIds fraction
      if useCompressedSensing then
        let (inputs', _m, newDim, _fs') ←
          applyCompressedSensing csStore dataDir whichYear whichSet
            encodingDim freshMatrix inputs
        return ⟨inputs', targets, targetIds, maxNumAns, maxProbSetId,
          newDim⟩
      else
        return ⟨inputs, targets, targetIds, maxNumAns, maxProbSetId,
          encodingDim⟩

/-- Closed instance backing C2/C4: a 5-row dataset with batch_size 2 and
max_num_batches -1 yields num_batches 2 (the fifth row unused), matching
the claim's example. -/
def sampleDP : DataProvider Nat Nat :=
  { inputs := [10, 20, 30, 40, 50], targets := [0, 1, 2, 3, 4],
    batchSize := 2, maxNumBatches := -1, numBatches := 2,
    shuffleOrder := false, currentOrder := [0, 1, 2, 3, 4],
    currBatch := 0, rng := [] }

/-- Provider refuting C1 as stated: one student with a single valid answer
but max_num_ans = 2, so the stored rows are padded (inputs row of width
max_num_ans*encoding_dim = 2, target_ids row of width
max_num_ans*max_prob_set_id = 2, targets row of length 1). -/
def assistPaddedDP : ASSISTDataProvider :=
  { inputs := [[3, 4]], targets := [[1]], targetIds := [[0, 0]],
    batchSize := 1, maxNumBatches := -1, numBatches := 1,
    shuffleOrder := false, currentOrder := [0], currBatch := 0, rng := [],
    maxNumAns := 2, maxProbSetId := 1, encodingDim := 1 }

/-- Provider refuting C3 as stated: shuffle_order is enabled, so reset()
re-shuffles after restoring the canonical order. -/
def assistShuffledDP : ASSISTDataProvider :=
  { inputs := [[1], [2]], targets := [[1], [0]], targetIds := [[5], [6]],
    batchSize := 1, maxNumBatches := -1, numBatches := 2,
    shuffleOrder := true, currentOrder := [0, 1], currBatch := 0,
    rng := [[1, 0], [1, 0]],
    maxNumAns := 1, maxProbSetId := 1, encodingDim := 1 }

/-- Closed instance backing the amended C3: shuffle_order disabled, rows
currently permuted by current_order = [1, 0] relative to the canonical
arrays [[7], [8]] / [[1], [0]] / [[5], [6]]. -/
def assistPermutedDP : ASSISTDataProvider :=
  { inputs := [[8], [7]], targets := [[0], [1]], targetIds := [[6], [5]],
    batchSize := 1, maxNumBatches := -1, numBatches := 2,
    shuffleOrder := false, currentOrder := [1, 0], currBatch := 0,
    rng := [[1, 0]],
    maxNumAns := 1, maxProbSetId := 1, encodingDim := 1 }

/-- Path of the compression-matrix artifact used by the C8 witness. -/
def csPath : String := trainPath "data" "09" ++ "-compression-matrix.npz"

/-- Store holding a persisted compression matrix, for the C8 witness. -/
def csStoreWithMatrix : List (String × List (List Int)) := [(csPath, [[2]])]

/-- Concrete targets/inputs artifact blob used by the C10 witness. -/
def blobA : FileBlob := ⟨2, 1, [[1]], [[0, 0]]⟩

/-- Store holding the two artifacts _validate_inputs checks, for the C10
witness. -/
def c10Store : List (String × FileBlob) :=
  [("dir/assist09-train-inputs.npz", blobA),
   ("dir/assist09-train-targets.npz", blobA)]

/-- Concrete pre-built fold bundle used by the C10 witness. -/
def bundleA : FoldData := ⟨[[1, 2]], [[1]], [[3, 4]], 2, 1, 1⟩

theorem applyPerm_nil {α : Type} (p : List Nat) :
    applyPerm p ([] : List α) = [] := by
  induction p with
  | nil => rfl
  | cons a p ih => simp [applyPerm, List.filterMap_cons]

theorem applyPerm_cons {α : Type} (a : Nat) (p : List Nat) (xs : List α)
    (ha : a < xs.length) :
    applyPerm (a :: p) xs = xs[a] :: applyPerm p xs := by
  simp [applyPerm, List.filterMap_cons, List.getElem?_eq_getElem ha]

theorem length_applyPerm {α : Type} (p : List Nat) (xs : List α)
    (h : ∀ i ∈ p, i < xs.length) : (applyPerm p xs).length = p.length := by
  induction p with
  | nil => rfl
  | cons a p ih =>
    rw [applyPerm_cons a p xs (h a (by simp))]
    simp only [List.length_cons]
    rw [ih (fun i hi => h i (by simp [hi]))]

theorem getElem?_applyPerm {α : Type} (p : List Nat) (xs : List α)
    (h : ∀ i ∈ p, i < xs.length) (k : Nat) (hk : k < p.length) :
    (applyPerm p xs)[k]? = xs[p[k]]? := by
  induction p generalizing k with
  | nil => simp at hk
  | cons a p ih =>
    rw [applyPerm_cons a p xs (h a (by simp))]
    cases k with
    | zero =>
      have ha : a < xs.length := h a (by simp)
      simp [List.getElem?_eq_getElem ha]
    | succ k =>
      simp only [List.getElem?_cons_succ, List.getElem_cons_succ]
      exact ih (fun i hi => h i (by simp [hi])) k (by simpa using hk)

theorem slice_eq_applyPerm {α : Type} (a b : Nat) (xs : List α)
    (h : a + b ≤ xs.length) :
    (xs.drop a).take b = applyPerm (List.range' a b) xs := by
  have hmem : ∀ i ∈ List.range' a b, i < xs.length := by
    intro i hi
    rw [List.mem_range'] at hi
    obtain ⟨j, hj, rfl⟩ := hi
    omega
  apply List.ext_getElem?
  intro k
  by_cases hk : k < b
  · have h1 : k < (List.range' a b).length := by
      simpa [List.length_range'] using hk
    rw [getElem?_applyPerm _ _ hmem k h1, List.getElem_range']
    have hk2 : k < (xs.drop a).length := by
      simp only [List.length_drop]; omega
    have hk3 : k < ((xs.drop a).take b).length := by
      simp only [List.length_take]; omega
    rw [List.getElem?_eq_getElem hk3, List.getElem?_eq_getElem (by omega :
      a + 1 * k < xs.length)]
    congr 1
    rw [List.getElem_take, List.getElem_drop]
    congr 1
    omega
  · rw [List.getElem?_eq_none, List.getElem?_eq_none]
    · rw [length_applyPerm _ _ hmem]
      simp only [List.length_range']
      omega
    · simp only [List.length_take]
      omega

theorem next_emits {α β : Type} (t : DataProvider α β)
    (hj : t.currBatch < t.numBatches)
    (hin : t.numBatches * t.batchSize ≤ t.inputs.length)
    (hts : t.targets.length = t.inputs.length) :
    t.next = (some (applyPerm (batchIndices t.batchSize t.currBatch) t.inputs,
                    applyPerm (batchIndices t.batchSize t.currBatch) t.targets),
              { t with currBatch := t.currBatch + 1 }) := by
  have hjb : t.currBatch * t.batchSize + t.batchSize ≤ t.inputs.length := by
    have h1 : (t.currBatch + 1) * t.batchSize ≤ t.numBatches * t.batchSize :=
      Nat.mul_le_mul_right _ hj
    have h2 : t.currBatch * t.batchSize + t.batchSize =
        (t.currBatch + 1) * t.batchSize := by ring
    omega
  have e1 : (t.inputs.drop (t.currBatch * t.batchSize)).take t.batchSize =
      applyPerm (batchIndices t.batchSize t.currBatch) t.inputs :=
    slice_eq_applyPerm _ _ _ hjb
  have e2 : (t.targets.drop (t.currBatch * t.batchSize)).take t.batchSize =
      applyPerm (batchIndices t.batchSize t.currBatch) t.targets :=
    slice_eq_applyPerm _ _ _ (by omega)
  simp only [DataProvider.next]
  rw [if_neg (by omega), e1, e2]

theorem flatMap_batchIndices_eq_range (n b : Nat) :
    (List.range n).flatMap (fun j => batchIndices b j) =
      List.range (n * b) := by
  induction n with
  | zero => simp
  | succ n ih =>
    rw [List.range_succ, List.flatMap_append, ih]
    simp only [List.flatMap_cons, List.flatMap_nil, List.append_nil,
      batchIndices]
    rw [List.range_eq_range', List.range_eq_range']
    have h := List.range'_append 0 (n * b) b 1
    simp only [one_mul, Nat.zero_add] at h
    rw [h]
    congr 1
    ring

/-- C2: num_batches equals min(max_num_batches unless it is -1, in which
case there is no cap, and floor(rows/batch_size)); the batches emitted in
one epoch are the pairwise-disjoint contiguous slices
[j*batch_size, (j+1)*batch_size) for j < num_batches, whose union is
exactly the first num_batches*batch_size row indices, the remaining rows
being unused that epoch. -/
theorem C2_num_batches_epoch_coverage {α β : Type} (s : DataProvider α β)
    (hbs : 1 ≤ s.batchSize)
    (hts : s.targets.length = s.inputs.length) :
    s.updateNumBatches.numBatches =
      (if s.maxNumBatches = -1 then s.inputs.length / s.batchSize
       else min s.maxNumBatches.toNat (s.inputs.length / s.batchSize))
    ∧ s.updateNumBatches.numBatches * s.batchSize ≤ s.inputs.length
    ∧ (List.range s.updateNumBatches.numBatches).flatMap
        (fun j => batchIndices s.batchSize j) =
        List.range (s.updateNumBatches.numBatches * s.batchSize)
    ∧ ∀ j, j < s.updateNumBatches.numBatches →
        ({ s.updateNumBatches with currBatch := j }).next =
          (some (applyPerm (batchIndices s.batchSize j) s.inputs,
                 applyPerm (batchIndices s.batchSize j) s.targets),
           { s.updateNumBatches with currBatch := j + 1 }) := by
  have hnum : s.updateNumBatches.numBatches =
      (if s.maxNumBatches = -1 then s.inputs.length / s.batchSize
       else min s.maxNumBatches.toNat (s.inputs.length / s.batchSize)) := rfl
  have hle : s.updateNumBatches.numBatches ≤ s.inputs.length / s.batchSize := by
    rw [hnum]
    split
    · exact le_refl _
    · exact min_le_right _ _
  have hbound : s.updateNumBatches.numBatches * s.batchSize ≤
      s.inputs.length :=
    calc s.updateNumBatches.numBatches * s.batchSize
        ≤ (s.inputs.length / s.batchSize) * s.batchSize :=
          Nat.mul_le_mul_right _ hle
      _ ≤ s.inputs.length := Nat.div_mul_le_self _ _
  refine ⟨hnum, hbound, flatMap_batchIndices_eq_range _ _, ?_⟩
  intro j hj
  exact next_emits { s.updateNumBatches with currBatch := j } hj hbound hts

theorem C2_num_batches_epoch_coverage_witness :
    1 ≤ sampleDP.batchSize
    ∧ sampleDP.targets.length = sampleDP.inputs.length
    ∧ sampleDP.updateNumBatches.numBatches = 2
    ∧ (sampleDP.updateNumBatches.numBatches =
        (if sampleDP.maxNumBatches = -1 then
            sampleDP.inputs.length / sampleDP.batchSize
         else min sampleDP.maxNumBatches.toNat
            (sampleDP.inputs.length / sampleDP.batchSize))
      ∧ sampleDP.updateNumBatches.numBatches * sampleDP.batchSize ≤
          sampleDP.inputs.length
      ∧ (List.range sampleDP.updateNumBatches.numBatches).flatMap
          (fun j => batchIndices sampleDP.batchSize j) =
          List.range (sampleDP.updateNumBatches.numBatches *
            sampleDP.batchSize)
      ∧ ∀ j, j < sampleDP.updateNumBatches.numBatches →
          ({ sampleDP.updateNumBatches with currBatch := j }).next =
            (some (applyPerm (batchIndices sampleDP.batchSize j)
                     sampleDP.inputs,
                   applyPerm (batchIndices sampleDP.batchSize j)
                     sampleDP.targets),
             { sampleDP.updateNumBatches with currBatch := j + 1 })) :=
  ⟨by decide, by decide, by decide,
   C2_num_batches_epoch_coverage sampleDP (by decide) (by decide)⟩

/-- C4: with the cursor past the last batch of the epoch, next() signals
end-of-epoch exactly once (none, after new_epoch has run), the provider
remains usable (num_batches preserved, cursor back at 0), and the
immediately following next() returns the first batch of the fresh epoch. -/
theorem C4_end_of_epoch_once {α β : Type} (s : DataProvider α β)
    (hend : s.currBatch = s.numBatches) (hpos : 1 ≤ s.numBatches) :
    s.next.1 = none
    ∧ s.next.2 = s.newEpoch
    ∧ s.next.2.numBatches = s.numBatches
    ∧ s.next.2.currBatch = 0
    ∧ s.next.2.next.1 =
        some (s.next.2.inputs.take s.batchSize,
              s.next.2.targets.take s.batchSize)
    ∧ s.next.2.next.2.currBatch = 1 := by
  have h1 : s.next = (none, s.newEpoch) := by
    simp only [DataProvider.next]
    rw [if_pos (by omega)]
  have hne1 : s.newEpoch.numBatches = s.numBatches := by
    simp only [DataProvider.newEpoch, DataProvider.shuffle]
    split <;> rfl
  have hne2 : s.newEpoch.currBatch = 0 := by
    simp only [DataProvider.newEpoch, DataProvider.shuffle]
    split <;> rfl
  have hne3 : s.newEpoch.batchSize = s.batchSize := by
    simp only [DataProvider.newEpoch, DataProvider.shuffle]
    split <;> rfl
  have h2 : s.newEpoch.next =
      (some (s.newEpoch.inputs.take s.batchSize,
             s.newEpoch.targets.take s.batchSize),
       { s.newEpoch with currBatch := s.newEpoch.currBatch + 1 }) := by
    simp only [DataProvider.next]
    rw [if_neg (by omega), hne2, hne3, Nat.zero_mul, List.drop_zero,
      List.drop_zero]
  refine ⟨by rw [h1], by rw [h1], by rw [h1]; exact hne1, by rw [h1]; exact hne2,
    ?_, ?_⟩
  · rw [h1]
    simp only [h2]
  · rw [h1]
    simp only [h2, hne2]

theorem C4_end_of_epoch_once_witness :
    (let s : DataProvider Nat Nat := { sampleDP with currBatch := 2, numBatches := 2 }
     s.currBatch = s.numBatches
     ∧ 1 ≤ s.numBatches
     ∧ (s.next.1 = none
        ∧ s.next.2 = s.newEpoch
        ∧ s.next.2.numBatches = s.numBatches
        ∧ s.next.2.currBatch = 0
        ∧ s.next.2.next.1 =
            some (s.next.2.inputs.take s.batchSize,
                  s.next.2.targets.take s.batchSize)
        ∧ s.next.2.next.2.currBatch = 1)) :=
  ⟨by decide, by decide,
   C4_end_of_epoch_once { sampleDP with currBatch := 2, numBatches := 2 }
     (by decide) (by decide)⟩

theorem mem_lt_of_perm_range {q : List Nat} {n : Nat}
    (hq : q.Perm (List.range n)) : ∀ i ∈ q, i < n := by
  intro i hi
  have h := hq.mem_iff.mp hi
  simpa [List.mem_range] using h

theorem length_of_perm_range {q : List Nat} {n : Nat}
    (hq : q.Perm (List.range n)) : q.length = n := by
  simpa [List.length_range] using hq.length_eq

theorem applyPerm_eq_map_getD {α : Type} (d : α) (p : List Nat)
    (xs : List α) (h : ∀ i ∈ p, i < xs.length) :
    applyPerm p xs = p.map (fun i => xs.getD i d) := by
  induction p with
  | nil => rfl
  | cons a p ih =>
    have ha : a < xs.length := h a (by simp)
    rw [applyPerm_cons a p xs ha, List.map_cons,
      ih (fun i hi => h i (by simp [hi])), List.getD_eq_getElem _ _ ha]

theorem map_getD_range {α : Type} (d : α) (xs : List α) :
    (List.range xs.length).map (fun i => xs.getD i d) = xs := by
  apply List.ext_getElem?
  intro k
  by_cases hk : k < xs.length
  · rw [List.getElem?_eq_getElem (by simpa using hk),
      List.getElem?_eq_getElem hk]
    simp only [List.getElem_map, List.getElem_range]
    rw [List.getD_eq_getElem xs d hk]
  · rw [List.getElem?_eq_none (by simpa using Nat.le_of_not_lt hk),
      List.getElem?_eq_none (Nat.le_of_not_lt hk)]

theorem applyPerm_perm {p σ : List Nat} {n : Nat}
    (hp : p.Perm (List.range n)) (hσl : σ.length = n) :
    (applyPerm p σ).Perm σ := by
  subst hσl
  have h : ∀ i ∈ p, i < σ.length := mem_lt_of_perm_range hp
  rw [applyPerm_eq_map_getD 0 p σ h]
  have h1 : (p.map fun i => σ.getD i 0).Perm
      ((List.range σ.length).map fun i => σ.getD i 0) := hp.map _
  rwa [map_getD_range] at h1

theorem applyPerm_applyPerm {α : Type} (p σ : List Nat) (xs : List α)
    (hp : ∀ i ∈ p, i < σ.length) (hσ : ∀ j ∈ σ, j < xs.length) :
    applyPerm p (applyPerm σ xs) = applyPerm (applyPerm p σ) xs := by
  induction p with
  | nil => rfl
  | cons a p ih =>
    have ha : a < σ.length := hp a (by simp)
    have haσ : σ[a] < xs.length := hσ σ[a] (List.getElem_mem ha)
    have hlen : a < (applyPerm σ xs).length := by
      rw [length_applyPerm σ xs hσ]
      exact ha
    have hval : (applyPerm σ xs)[a] = xs[σ[a]] := by
      have h1 := getElem?_applyPerm σ xs hσ a ha
      rw [List.getElem?_eq_getElem hlen, List.getElem?_eq_getElem haσ] at h1
      exact Option.some_injective _ h1
    rw [applyPerm_cons a p (applyPerm σ xs) hlen,
      applyPerm_cons a p σ ha,
      applyPerm_cons σ[a] (applyPerm p σ) xs haσ,
      hval, ih (fun i hi => hp i (by simp [hi]))]

theorem applyPerm_argsort_applyPerm {α : Type} {q : List Nat} {n : Nat}
    (hq : q.Perm (List.range n)) (xs : List α) (hxs : xs.length = n) :
    applyPerm (argsort q) (applyPerm q xs) = xs := by
  have hql : q.length = n := length_of_perm_range hq
  have hmemq : ∀ i ∈ q, i < xs.length := by
    intro i hi
    rw [hxs]
    exact mem_lt_of_perm_range hq i hi
  have hlen1 : (applyPerm q xs).length = n := by
    rw [length_applyPerm q xs hmemq, hql]
  have hargl : (argsort q).length = n := by
    simp [argsort, hql]
  have hmema : ∀ i ∈ argsort q, i < (applyPerm q xs).length := by
    intro i hi
    rw [hlen1]
    simp only [argsort, List.mem_map, List.mem_range] at hi
    obtain ⟨v, hv, rfl⟩ := hi
    have hvq : v ∈ q := hq.mem_iff.mpr (by simpa [List.mem_range, hql] using hv)
    rw [← hql]
    exact List.indexOf_lt_length.mpr hvq
  apply List.ext_getElem?
  intro k
  by_cases hk : k < n
  · have hk1 : k < (argsort q).length := by rw [hargl]; exact hk
    rw [getElem?_applyPerm _ _ hmema k hk1]
    have hidx : (argsort q)[k] = List.indexOf k q := by
      simp [argsort]
    rw [hidx]
    have hkq : k ∈ q := hq.mem_iff.mpr (by simpa [List.mem_range] using hk)
    have hilt : List.indexOf k q < q.length := List.indexOf_lt_length.mpr hkq
    rw [getElem?_applyPerm q xs hmemq _ (by rw [hql] at hilt ⊢; exact hilt)]
    congr 1
    exact List.getElem_indexOf hilt
  · rw [List.getElem?_eq_none, List.getElem?_eq_none]
    · omega
    · rw [length_applyPerm _ _ hmema, hargl]
      omega

theorem reset_fields_of_no_shuffle (s : ASSISTDataProvider)
    (hso : s.shuffleOrder = false) :
    s.reset.inputs = applyPerm (argsort s.currentOrder) s.inputs
    ∧ s.reset.targets = applyPerm (argsort s.currentOrder) s.targets
    ∧ s.reset.targetIds = applyPerm (argsort s.currentOrder) s.targetIds := by
  simp only [ASSISTDataProvider.reset, ASSISTDataProvider.newEpoch, hso,
    Bool.false_eq_true, if_false]
  exact ⟨trivial, trivial, trivial⟩

/-- C3 counterexample: with shuffle_order enabled (and the claim quantifies
over every provider state), reset() ends by starting a new epoch, which
re-shuffles; so shuffle() followed by reset() leaves the rows in a fresh
shuffled order instead of byte-for-byte the pre-shuffle state. -/
theorem C3_counterexample :
    assistShuffledDP.shuffle.reset.inputs ≠ assistShuffledDP.inputs := by
  decide

/-- C3 amended: reset() restores the canonical construction-time row order.
When shuffle_order is disabled, shuffle() followed by reset() therefore
returns inputs, targets and target_ids byte-for-byte to the canonical
arrays, which equal the pre-shuffle state exactly when the provider had not
been shuffled before; when shuffle_order is enabled, the restore still
happens but new_epoch inside reset() immediately re-shuffles. -/
theorem C3_shuffle_reset_restores_canonical (s : ASSISTDataProvider)
    (inp0 tgt0 ids0 : List (List Int)) (n : Nat)
    (hso : s.shuffleOrder = false)
    (hord : s.currentOrder.Perm (List.range n))
    (hin : s.inputs = applyPerm s.currentOrder inp0)
    (htg : s.targets = applyPerm s.currentOrder tgt0)
    (hid : s.targetIds = applyPerm s.currentOrder ids0)
    (hin0 : inp0.length = n) (htg0 : tgt0.length = n)
    (hid0 : ids0.length = n)
    (hp : s.nextPerm.Perm (List.range n)) :
    s.shuffle.reset.inputs = inp0
    ∧ s.shuffle.reset.targets = tgt0
    ∧ s.shuffle.reset.targetIds = ids0 := by
  have hσl : s.currentOrder.length = n := length_of_perm_range hord
  have hppv : ∀ i ∈ s.nextPerm, i < s.currentOrder.length := by
    intro i hi
    rw [hσl]
    exact mem_lt_of_perm_range hp i hi
  have hcomp : (applyPerm s.nextPerm s.currentOrder).Perm (List.range n) :=
    (applyPerm_perm hp hσl).trans hord
  have hso' : s.shuffle.shuffleOrder = false := hso
  obtain ⟨r1, r2, r3⟩ := reset_fields_of_no_shuffle s.shuffle hso'
  have hord' : s.shuffle.currentOrder = applyPerm s.nextPerm s.currentOrder :=
    rfl
  have restore : ∀ (xs0 : List (List Int)), xs0.length = n →
      applyPerm (argsort s.shuffle.currentOrder)
        (applyPerm s.nextPerm (applyPerm s.currentOrder xs0)) = xs0 := by
    intro xs0 hxs0
    have hσv : ∀ j ∈ s.currentOrder, j < xs0.length := by
      intro j hj
      rw [hxs0]
      exact mem_lt_of_perm_range hord j hj
    rw [applyPerm_applyPerm s.nextPerm s.currentOrder xs0 hppv hσv, hord']
    exact applyPerm_argsort_applyPerm hcomp xs0 hxs0
  refine ⟨?_, ?_, ?_⟩
  · rw [r1]
    show applyPerm (argsort s.shuffle.currentOrder)
      (applyPerm s.nextPerm s.inputs) = inp0
    rw [hin]
    exact restore inp0 hin0
  · rw [r2]
    show applyPerm (argsort s.shuffle.currentOrder)
      (applyPerm s.nextPerm s.targets) = tgt0
    rw [htg]
    exact restore tgt0 htg0
  · rw [r3]
    show applyPerm (argsort s.shuffle.currentOrder)
      (applyPerm s.nextPerm s.targetIds) = ids0
    rw [hid]
    exact restore ids0 hid0

theorem C3_shuffle_reset_restores_canonical_witness :
    assistPermutedDP.shuffleOrder = false
    ∧ assistPermutedDP.currentOrder.Perm (List.range 2)
    ∧ assistPermutedDP.inputs =
        applyPerm assistPermutedDP.currentOrder [[7], [8]]
    ∧ assistPermutedDP.nextPerm.Perm (List.range 2)
    ∧ (assistPermutedDP.shuffle.reset.inputs = [[7], [8]]
       ∧ assistPermutedDP.shuffle.reset.targets = [[1], [0]]
       ∧ assistPermutedDP.shuffle.reset.targetIds = [[5], [6]]) :=
  ⟨by decide, by decide, by decide, by decide,
   C3_shuffle_reset_restores_canonical assistPermutedDP
     [[7], [8]] [[1], [0]] [[5], [6]] 2
     (by decide) (by decide) (by decide) (by decide) (by decide)
     (by decide) (by decide) (by decide) (by decide)⟩

theorem list_strong_induction {α : Type} (P : List α → Prop)
    (h : ∀ xs : List α, (∀ ys : List α, ys.length < xs.length → P ys) → P xs) :
    ∀ xs, P xs := by
  have haux : ∀ (n : Nat) (ys : List α), ys.length ≤ n → P ys := by
    intro n
    induction n with
    | zero =>
      intro ys hy
      apply h
      intro zs hz
      omega
    | succ n ih =>
      intro ys hy
      apply h
      intro zs hz
      apply ih
      omega
  exact fun xs => haux xs.length xs (le_refl _)

theorem chunkListAux_fuel {α : Type} (t : Nat) (ht : t ≠ 0) :
    ∀ (n f g : Nat) (xs : List α), xs.length ≤ n → xs.length ≤ f →
      xs.length ≤ g → chunkListAux t f xs = chunkListAux t g xs := by
  intro n
  induction n with
  | zero =>
    intro f g xs hn _ _
    have hxs : xs = [] := List.eq_nil_of_length_eq_zero (by omega)
    subst hxs
    cases f <;> cases g <;> rfl
  | succ n ih =>
    intro f g xs hn hf hg
    cases xs with
    | nil => cases f <;> cases g <;> rfl
    | cons x xs' =>
      simp only [List.length_cons] at hn hf hg
      obtain ⟨f', rfl⟩ : ∃ f', f = f' + 1 := ⟨f - 1, by omega⟩
      obtain ⟨g', rfl⟩ : ∃ g', g = g' + 1 := ⟨g - 1, by omega⟩
      show ((x :: xs').take t) :: chunkListAux t f' ((x :: xs').drop t) =
        ((x :: xs').take t) :: chunkListAux t g' ((x :: xs').drop t)
      congr 1
      have hlen : ((x :: xs').drop t).length = xs'.length + 1 - t := by
        simp
      exact ih f' g' _ (by rw [hlen]; omega) (by rw [hlen]; omega)
        (by rw [hlen]; omega)

theorem chunkList_nil {α : Type} (t : Nat) :
    chunkList t ([] : List α) = [] := by
  by_cases h : t = 0 <;> simp [chunkList, chunkListAux, h]

theorem chunkList_cons {α : Type} {t : Nat} (ht : t ≠ 0) (x : α)
    (xs : List α) :
    chunkList t (x :: xs) =
      ((x :: xs).take t) :: chunkList t ((x :: xs).drop t) := by
  unfold chunkList
  rw [if_neg ht, if_neg ht]
  show ((x :: xs).take t) :: chunkListAux t xs.length ((x :: xs).drop t) = _
  congr 1
  have hlen : ((x :: xs).drop t).length = xs.length + 1 - t := by simp
  exact chunkListAux_fuel t ht xs.length xs.length ((x :: xs).drop t).length
    _ (by omega) (by omega) (by omega)

theorem chunkList_flatten {α : Type} {t : Nat} (ht : t ≠ 0) :
    ∀ xs : List α, (chunkList t xs).flatten = xs := by
  apply list_strong_induction
  intro xs ih
  cases xs with
  | nil => rw [chunkList_nil]; rfl
  | cons x xs' =>
    rw [chunkList_cons ht, List.flatten_cons,
      ih ((x :: xs').drop t) (by simp; omega), List.take_append_drop]

theorem chunkList_eq_nil_iff {α : Type} {t : Nat} (ht : t ≠ 0)
    (xs : List α) : chunkList t xs = [] ↔ xs = [] := by
  constructor
  · intro h
    have hf := chunkList_flatten ht xs
    rw [h] at hf
    exact hf.symm
  · intro h
    subst h
    exact chunkList_nil t

theorem ceil_div_step (m t : Nat) (ht : t ≠ 0) (hm : 1 ≤ m) :
    (m - t + t - 1) / t + 1 = (m + t - 1) / t := by
  by_cases h : t ≤ m
  · have e1 : m - t + t - 1 = m - 1 := by omega
    have e2 : m + t - 1 = (m - 1) + t := by omega
    rw [e1, e2, Nat.add_div_right _ (by omega)]
  · have e1 : m - t + t - 1 = t - 1 := by omega
    have hlt : (t - 1) / t = 0 := Nat.div_eq_of_lt (by omega)
    rw [e1, hlt]
    have h1 : 1 * t ≤ m + t - 1 := by omega
    have h2 : m + t - 1 < (1 + 1) * t := by omega
    rw [Nat.div_eq_of_lt_le h1 h2]

theorem length_chunkList {α : Type} {t : Nat} (ht : t ≠ 0) :
    ∀ xs : List α, (chunkList t xs).length = (xs.length + t - 1) / t := by
  apply list_strong_induction
  intro xs ih
  cases xs with
  | nil =>
    rw [chunkList_nil]
    simp only [List.length_nil, Nat.zero_add]
    rw [Nat.div_eq_of_lt (by omega)]
  | cons x xs' =>
    rw [chunkList_cons ht, List.length_cons, ih _ (by simp; omega)]
    simp only [List.length_drop, List.length_cons]
    exact ceil_div_step (xs'.length + 1) t ht (by omega)

theorem mem_of_mem_chunkList {α : Type} {t : Nat} (ht : t ≠ 0)
    {xs : List α} {g : List α} (hg : g ∈ chunkList t xs) :
    ∀ a ∈ g, a ∈ xs := by
  intro a ha
  have h1 : a ∈ (chunkList t xs).flatten := List.mem_flatten.mpr ⟨g, hg, ha⟩
  rwa [chunkList_flatten ht] at h1

theorem selectByMask_map {α : Type} (p : α → Bool) (xs : List α) :
    selectByMask (xs.map p) xs = xs.filter p := by
  induction xs with
  | nil => rfl
  | cons a xs ih =>
    simp only [selectByMask, List.map_cons, List.zip_cons_cons,
      List.filter_cons] at *
    cases hpa : p a with
    | true => simpa [hpa] using ih
    | false => simpa [hpa] using ih

theorem any_eq_not_all_not {α : Type} (p : α → Bool) (l : List α) :
    l.any p = !(l.all fun a => !(p a)) := by
  induction l with
  | nil => rfl
  | cons a l ih => simp [List.any_cons, List.all_cons, ih, Bool.not_and]

theorem groupNonzero_eq_not_all_zero (g : List (List Int)) :
    groupNonzero g = !(g.all fun r => r.all fun x => x == 0) := by
  rw [groupNonzero, any_eq_not_all_not]
  have hrow : ∀ r : List Int,
      (!(rowNonzero r)) = r.all fun x => x == 0 := by
    intro r
    rw [rowNonzero, any_eq_not_all_not, Bool.not_not]
    simp only [bne, Bool.not_not]
  simp only [hrow]

theorem filter_flatMap {α β : Type} (l : List α) (g : α → List β)
    (p : β → Bool) :
    (l.flatMap g).filter p = l.flatMap fun a => (g a).filter p := by
  induction l with
  | nil => rfl
  | cons a l ih => simp [List.flatMap_cons, List.filter_append, ih]

theorem flatten_flatMap_blocks {α β : Type} (L : List (List α))
    (f : α → List β) :
    L.flatten.flatMap f = L.flatMap fun blk => blk.flatMap f := by
  induction L with
  | nil => rfl
  | cons a L ih => simp [List.flatten_cons, List.flatMap_append, ih]

theorem blocks_filter_collapse (maxNumAns d t : Nat)
    (rows : List (List Int)) :
    (chunkList 1000 rows).flatMap (fun blk =>
      ((blk.flatMap (rowGroups maxNumAns d t)).filter groupNonzero).map
        List.flatten) =
      ((rows.flatMap (rowGroups maxNumAns d t)).filter groupNonzero).map
        List.flatten := by
  rw [← List.map_flatMap, ← filter_flatMap, ← flatten_flatMap_blocks,
    chunkList_flatten (by omega)]

theorem truncBlock_ok (maxNumAns d t : Nat) (blk : List (List Int))
    (h : (blk.flatMap (rowGroups maxNumAns d t)).filter groupNonzero
      ≠ []) :
    truncBlock maxNumAns d t blk =
      .ok (((blk.flatMap (rowGroups maxNumAns d t)).filter
        groupNonzero).map List.flatten) := by
  unfold truncBlock
  simp only [selectByMask_map]
  rw [if_neg (by
    intro hlen
    exact h (List.eq_nil_of_length_eq_zero hlen))]

theorem truncBlocks_ok (maxNumAns d t : Nat) :
    ∀ blocks : List (List (List Int)),
      (∀ blk ∈ blocks,
        (blk.flatMap (rowGroups maxNumAns d t)).filter groupNonzero
          ≠ []) →
      truncBlocks maxNumAns d t blocks =
        .ok (blocks.map (fun blk =>
          ((blk.flatMap (rowGroups maxNumAns d t)).filter
            groupNonzero).map List.flatten)) := by
  intro blocks
  induction blocks with
  | nil => intro _; rfl
  | cons blk rest ih =>
    intro h
    show (truncBlock maxNumAns d t blk >>= fun r =>
      truncBlocks maxNumAns d t rest >>= fun rs => pure (r :: rs)) = _
    rw [truncBlock_ok maxNumAns d t blk (h blk (by simp)),
      ih (fun b hb => h b (by simp [hb]))]
    rfl

theorem truncateInputsOrIds_ok (maxNumAns d t : Nat)
    (rows : List (List Int)) (hne : rows ≠ [])
    (hblocks : ∀ blk ∈ chunkList 1000 rows,
      (blk.flatMap (rowGroups maxNumAns d t)).filter groupNonzero
        ≠ []) :
    truncateInputsOrIds maxNumAns d t rows =
      .ok (((rows.flatMap (rowGroups maxNumAns d t)).filter
        groupNonzero).map List.flatten) := by
  have hbne : chunkList 1000 rows ≠ [] := by
    intro h
    exact hne ((chunkList_eq_nil_iff (by omega) rows).mp h)
  obtain ⟨b, bs, hb⟩ : ∃ b bs, chunkList 1000 rows = b :: bs := by
    cases h : chunkList 1000 rows with
    | nil => exact absurd h hbne
    | cons b bs => exact ⟨b, bs, rfl⟩
  have step1 : truncateInputsOrIds maxNumAns d t rows =
      (truncBlocks maxNumAns d t (b :: bs) >>= fun results =>
        pure results.flatten) := by
    unfold truncateInputsOrIds
    rw [hb]
  rw [step1, truncBlocks_ok maxNumAns d t (b :: bs)
    (by rw [← hb]; exact hblocks)]
  show Except.ok (((b :: bs).map fun blk =>
      ((blk.flatMap (rowGroups maxNumAns d t)).filter
        groupNonzero).map List.flatten).flatten) = _
  congr 1
  rw [← List.flatMap_def, ← hb]
  exact blocks_filter_collapse maxNumAns d t rows

theorem sum_map_length_const {α : Type} (l : List (List α)) (w : Nat)
    (h : ∀ r ∈ l, r.length = w) : (l.map List.length).sum = l.length * w := by
  induction l with
  | nil => simp
  | cons a l ih =>
    simp only [List.map_cons, List.sum_cons, List.length_cons]
    rw [h a (by simp), ih (fun r hr => h r (by simp [hr]))]
    ring

/-- C1 counterexample: assistPaddedDP's single emitted batch flattens
targets to length 1 (the one valid answer) but target_ids to length 2 (the
full padded stored row), so the two flattened arrays do not have equal
length and the target_ids length is not the sum of per-student
valid-answer counts. -/
theorem C1_counterexample :
    (assistPaddedDP.next.1.map fun b => (b.2.1.length, b.2.2.length)) =
      some (1, 2) := by
  decide

/-- C1 amended: for every batch emitted by ASSIST next(), the flattened
targets array has length equal to the sum of the per-student valid-answer
counts in the batch, while the flattened target_ids array has length
batch_size * w, where w is the constant stored width of a target_ids row
(max_num_ans * max_prob_set_id in the on-disk encoding); the two agree
only in the degenerate case where every student's row width equals their
valid-answer count, which padding breaks in general. -/
theorem C1_flatten_lengths (s : ASSISTDataProvider) (w : Nat)
    (hj : s.currBatch < s.numBatches)
    (hin : s.numBatches * s.batchSize ≤ s.inputs.length)
    (hts : s.targets.length = s.inputs.length)
    (hids : s.targetIds.length = s.inputs.length)
    (hw : ∀ r ∈ s.targetIds, r.length = w) :
    s.next.1 = some
      ((s.inputs.drop (s.currBatch * s.batchSize)).take s.batchSize,
       ((s.targets.drop (s.currBatch * s.batchSize)).take
         s.batchSize).flatten,
       ((s.targetIds.drop (s.currBatch * s.batchSize)).take
         s.batchSize).flatten)
    ∧ ((s.targets.drop (s.currBatch * s.batchSize)).take
         s.batchSize).flatten.length =
        (((s.targets.drop (s.currBatch * s.batchSize)).take
          s.batchSize).map List.length).sum
    ∧ ((s.targetIds.drop (s.currBatch * s.batchSize)).take
         s.batchSize).flatten.length = s.batchSize * w := by
  have hslice : s.currBatch * s.batchSize + s.batchSize ≤ s.inputs.length := by
    have h1 : (s.currBatch + 1) * s.batchSize ≤ s.numBatches * s.batchSize :=
      Nat.mul_le_mul_right _ hj
    have h2 : s.currBatch * s.batchSize + s.batchSize =
        (s.currBatch + 1) * s.batchSize := by ring
    omega
  refine ⟨?_, List.length_flatten _, ?_⟩
  · simp only [ASSISTDataProvider.next]
    rw [if_neg (by omega)]
    rfl
  · rw [List.length_flatten]
    have hsub : ∀ r ∈ (s.targetIds.drop
        (s.currBatch * s.batchSize)).take s.batchSize, r.length = w := by
      intro r hr
      exact hw r (List.drop_subset _ _ (List.take_subset _ _ hr))
    rw [sum_map_length_const _ w hsub]
    have hlen : ((s.targetIds.drop
        (s.currBatch * s.batchSize)).take s.batchSize).length =
        s.batchSize := by
      simp only [List.length_take, List.length_drop, hids]
      omega
    rw [hlen]

theorem C1_flatten_lengths_witness :
    assistPaddedDP.currBatch < assistPaddedDP.numBatches
    ∧ (∀ r ∈ assistPaddedDP.targetIds, r.length = 2)
    ∧ (assistPaddedDP.next.1 = some
        ((assistPaddedDP.inputs.drop
            (assistPaddedDP.currBatch * assistPaddedDP.batchSize)).take
          assistPaddedDP.batchSize,
         ((assistPaddedDP.targets.drop
            (assistPaddedDP.currBatch * assistPaddedDP.batchSize)).take
          assistPaddedDP.batchSize).flatten,
         ((assistPaddedDP.targetIds.drop
            (assistPaddedDP.currBatch * assistPaddedDP.batchSize)).take
          assistPaddedDP.batchSize).flatten)
      ∧ ((assistPaddedDP.targets.drop
            (assistPaddedDP.currBatch * assistPaddedDP.batchSize)).take
          assistPaddedDP.batchSize).flatten.length =
          (((assistPaddedDP.targets.drop
            (assistPaddedDP.currBatch * assistPaddedDP.batchSize)).take
          assistPaddedDP.batchSize).map List.length).sum
      ∧ ((assistPaddedDP.targetIds.drop
            (assistPaddedDP.currBatch * assistPaddedDP.batchSize)).take
          assistPaddedDP.batchSize).flatten.length =
          assistPaddedDP.batchSize * 2) :=
  ⟨by decide, by decide,
   C1_flatten_lengths assistPaddedDP 2 (by decide) (by decide) (by decide)
     (by decide) (by decide)⟩

theorem chunkList_chunk_bounds {α : Type} {t : Nat} (ht : t ≠ 0) :
    ∀ xs : List α, ∀ g ∈ chunkList t xs, g.length ≤ t ∧ g ≠ [] := by
  apply list_strong_induction
  intro xs ih
  cases xs with
  | nil =>
    intro g hg
    rw [chunkList_nil] at hg
    simp at hg
  | cons x xs' =>
    intro g hg
    rw [chunkList_cons ht] at hg
    rcases List.mem_cons.mp hg with h | h
    · subst h
      refine ⟨by simp [List.length_take], ?_⟩
      intro hnil
      rw [List.take_eq_nil_iff] at hnil
      rcases hnil with h0 | h0
      · exact ht h0
      · exact List.cons_ne_nil x xs' h0
    · exact ih ((x :: xs').drop t) (by simp; omega) g h

theorem chunkList_dropLast_length {α : Type} {t : Nat} (ht : t ≠ 0) :
    ∀ xs : List α, ∀ g ∈ (chunkList t xs).dropLast, g.length = t := by
  apply list_strong_induction
  intro xs ih
  cases xs with
  | nil =>
    rw [chunkList_nil]
    intro g hg
    simp at hg
  | cons x xs' =>
    rw [chunkList_cons ht]
    intro g hg
    cases hrest : chunkList t ((x :: xs').drop t) with
    | nil =>
      rw [hrest] at hg
      simp at hg
    | cons r rs =>
      rw [hrest] at hg
      have hdl : (((x :: xs').take t) :: r :: rs).dropLast =
          ((x :: xs').take t) :: (r :: rs).dropLast := rfl
      rw [hdl] at hg
      rcases List.mem_cons.mp hg with h | h
      · subst h
        have hne : (x :: xs').drop t ≠ [] := by
          intro hnil
          rw [hnil, chunkList_nil] at hrest
          exact List.cons_ne_nil r rs hrest.symm
        have hlen : t < (x :: xs').length := by
          by_contra hle
          push_neg at hle
          exact hne (List.drop_eq_nil_of_le hle)
        simp only [List.length_take, List.length_cons]
        simp only [List.length_cons] at hlen
        omega
      · have hih := ih ((x :: xs').drop t) (by simp; omega)
        rw [hrest] at hih
        exact hih g h

/-- C5: truncate_sequences uses effective threshold
min(max_num_ans, threshold), always at most max_num_ans, and — whenever
truncation completes, i.e. the dataset is nonempty and every 1000-row
block of inputs and of target_ids retains at least one chunk (otherwise
the source raises ValueError, from new_x.reshape(0, -1) on an
all-discarded block or sp.vstack of an empty list) — the retained rows of
inputs and target_ids are exactly the padded threshold-by-final_dim
sub-blocks that are not entirely zero, each flattened back into a row in
order.  The right-hand sides are expressed directly over the input rows,
so the retained row count is determined by the input and the threshold
alone — in particular the 1000-row blocking of the source does not affect
the result. -/
theorem C5_truncate_sequences_spec (maxNumAns encodingDim maxProbSetId
    threshold : Nat) (inputs targetIds targets : List (List Int))
    (hinne : inputs ≠ []) (hidne : targetIds ≠ [])
    (hbin : ∀ blk ∈ chunkList 1000 inputs,
      (blk.flatMap (rowGroups maxNumAns encodingDim
        (min maxNumAns threshold))).filter
        (fun g => !(g.all fun r => r.all fun x => x == 0)) ≠ [])
    (hbid : ∀ blk ∈ chunkList 1000 targetIds,
      (blk.flatMap (rowGroups maxNumAns maxProbSetId
        (min maxNumAns threshold))).filter
        (fun g => !(g.all fun r => r.all fun x => x == 0)) ≠ []) :
    min maxNumAns threshold ≤ maxNumAns
    ∧ truncateSequences maxNumAns encodingDim maxProbSetId inputs
        targetIds targets threshold =
      .ok
        (((inputs.flatMap (rowGroups maxNumAns encodingDim
            (min maxNumAns threshold))).filter
          (fun g => !(g.all fun r => r.all fun x => x == 0))).map
          List.flatten,
         ((targetIds.flatMap (rowGroups maxNumAns maxProbSetId
            (min maxNumAns threshold))).filter
          (fun g => !(g.all fun r => r.all fun x => x == 0))).map
          List.flatten,
         truncateTargets (min maxNumAns threshold) targets,
         min maxNumAns threshold) := by
  have hconv : ∀ L : List (List (List Int)),
      L.filter (fun g => !(g.all fun r => r.all fun x => x == 0)) =
      L.filter groupNonzero := by
    intro L
    apply List.filter_congr
    intro g _
    exact (groupNonzero_eq_not_all_zero g).symm
  refine ⟨min_le_left _ _, ?_⟩
  have h1 := truncateInputsOrIds_ok maxNumAns encodingDim
    (min maxNumAns threshold) inputs hinne
    (by intro blk hblk; rw [← hconv]; exact hbin blk hblk)
  have h2 := truncateInputsOrIds_ok maxNumAns maxProbSetId
    (min maxNumAns threshold) targetIds hidne
    (by intro blk hblk; rw [← hconv]; exact hbid blk hblk)
  simp only [truncateSequences]
  simp only [hconv]
  rw [h1, h2]
  rfl

theorem C5_truncate_sequences_spec_witness :
    ([[1]] : List (List Int)) ≠ []
    ∧ (∀ blk ∈ chunkList 1000 ([[1]] : List (List Int)),
        (blk.flatMap (rowGroups 1 1 (min 1 1))).filter
          (fun g => !(g.all fun r => r.all fun x => x == 0)) ≠ [])
    ∧ (min 1 1 ≤ 1
      ∧ truncateSequences 1 1 1 [[1]] [[1]] [[5]] 1 =
        .ok
          (((([[1]] : List (List Int)).flatMap (rowGroups 1 1
              (min 1 1))).filter
            (fun g => !(g.all fun r => r.all fun x => x == 0))).map
            List.flatten,
           ((([[1]] : List (List Int)).flatMap (rowGroups 1 1
              (min 1 1))).filter
            (fun g => !(g.all fun r => r.all fun x => x == 0))).map
            List.flatten,
           truncateTargets (min 1 1) [[5]],
           min 1 1)) :=
  ⟨by decide, by decide,
   C5_truncate_sequences_spec 1 1 1 1 [[1]] [[1]] [[5]] (by decide)
     (by decide) (by decide) (by decide)⟩

/-- C7: _truncate_targets splits each student's label sequence into
consecutive slices of size threshold with the last slice possibly shorter
and no zero-padding: the result lists all students' slices student-major;
per student, the slices concatenate back to exactly the original sequence
(nothing added, nothing dropped), every slice is nonempty of length at
most threshold, and every slice except possibly the last has length
exactly threshold. -/
theorem C7_truncate_targets_slices (t : Nat) (ht : t ≠ 0)
    (targets : List (List Int)) :
    truncateTargets t targets = targets.flatMap (chunkList t)
    ∧ ∀ student ∈ targets,
        (chunkList t student).flatten = student
        ∧ (∀ g ∈ chunkList t student, g.length ≤ t ∧ g ≠ [])
        ∧ (∀ g ∈ (chunkList t student).dropLast, g.length = t) :=
  ⟨rfl, fun student _ => ⟨chunkList_flatten ht student,
    chunkList_chunk_bounds ht student, chunkList_dropLast_length ht student⟩⟩

theorem C7_truncate_targets_slices_witness :
    (2 : Nat) ≠ 0
    ∧ truncateTargets 2 [[1, 0, 1]] = [[1, 0], [1]]
    ∧ (truncateTargets 2 [[1, 0, 1]] = [[1, 0, 1]].flatMap (chunkList 2)
      ∧ ∀ student ∈ [[(1 : Int), 0, 1]],
          (chunkList 2 student).flatten = student
          ∧ (∀ g ∈ chunkList 2 student, g.length ≤ 2 ∧ g ≠ [])
          ∧ (∀ g ∈ (chunkList 2 student).dropLast, g.length = 2)) :=
  ⟨by decide, by decide, C7_truncate_targets_slices 2 (by decide) [[1, 0, 1]]⟩

/-- C6: with the deterministic contiguous KFold scheme _get_k_folds uses
(no shuffling), the validation blocks of the k folds partition the row
indices 0..n-1 — their concatenation in fold order is exactly range n, so
every row lies in the validation block of exactly one fold — and the train
indices of every fold are exactly the rows outside that fold's validation
block; hence every row is in the training partition of the remaining k-1
folds, and train and validation are disjoint within every fold. -/
theorem C6_kfold_partition (n k : Nat) (hk : k ≠ 0) :
    ((List.range k).flatMap fun i => valIndices n k i) = List.range n
    ∧ ∀ i r, r ∈ trainIndices n k i ↔ r < n ∧ r ∉ valIndices n k i := by
  constructor
  · have key : ∀ j, j ≤ k →
        ((List.range j).flatMap fun i => valIndices n k i) =
          List.range' 0 (foldStart n k j) := by
      intro j
      induction j with
      | zero => intro _; simp [foldStart]
      | succ j ih =>
        intro hj
        rw [List.range_succ, List.flatMap_append, ih (by omega)]
        simp only [List.flatMap_cons, List.flatMap_nil, List.append_nil]
        rw [valIndices]
        have happ := List.range'_append 0 (foldStart n k j)
          (foldSize n k j) 1
        simp only [one_mul, Nat.zero_add] at happ
        rw [happ]
        congr 1
        simp only [foldStart, foldSize]
        by_cases h : j < n % k
        · have h1 : min j (n % k) = j := by omega
          have h2 : min (j + 1) (n % k) = j + 1 := by omega
          rw [if_pos h, h1, h2]
          ring
        · have h1 : min j (n % k) = n % k := by omega
          have h2 : min (j + 1) (n % k) = n % k := by omega
          rw [if_neg h, h1, h2]
          ring
    have hfin := key k (le_refl k)
    rw [hfin]
    have hmod : n % k < k := Nat.mod_lt n (by omega)
    have hdm : k * (n / k) + n % k = n := Nat.div_add_mod n k
    have hstart : foldStart n k k = n := by
      simp only [foldStart]
      have h1 : min k (n % k) = n % k := by omega
      rw [h1]
      exact hdm
    rw [hstart, List.range_eq_range']
  · intro i r
    simp [trainIndices, List.mem_filter, List.mem_range]

theorem C6_kfold_partition_witness :
    (3 : Nat) ≠ 0
    ∧ (((List.range 3).flatMap fun i => valIndices 7 3 i) = List.range 7
      ∧ ∀ i r, r ∈ trainIndices 7 3 i ↔ r < 7 ∧ r ∉ valIndices 7 3 i) :=
  ⟨by decide, C6_kfold_partition 7 3 (by decide)⟩

/-- C8: with compressed sensing enabled on the test split, the provider
loads the projection matrix persisted at the TRAINING split's path and
applies it, leaving the file store untouched; when that artifact is absent
the call fails with FileNotFoundError and in particular never falls back
to generating or persisting a fresh matrix. -/
theorem C8_test_compression_requires_artifact
    (fs : List (String × List (List Int))) (dataDir whichYear : String)
    (encodingDim : Nat) (freshMatrix inputs : List (List Int)) :
    (fsLookup fs (trainPath dataDir whichYear ++
        "-compression-matrix.npz") = none →
      applyCompressedSensing fs dataDir whichYear "test" encodingDim
        freshMatrix inputs = .error "FileNotFoundError")
    ∧ ∀ m, fsLookup fs (trainPath dataDir whichYear ++
        "-compression-matrix.npz") = some m →
      applyCompressedSensing fs dataDir whichYear "test" encodingDim
        freshMatrix inputs =
        .ok (compressInputs encodingDim (m.headD []).length m inputs, m,
             (m.headD []).length, fs) := by
  constructor
  · intro h
    simp [applyCompressedSensing, h]
  · intro m h
    simp [applyCompressedSensing, h]

theorem C8_test_compression_requires_artifact_witness :
    fsLookup ([] : List (String × List (List Int))) csPath = none
    ∧ applyCompressedSensing [] "data" "09" "test" 1 [[1]] [[5]] =
        .error "FileNotFoundError"
    ∧ fsLookup csStoreWithMatrix csPath = some [[2]]
    ∧ applyCompressedSensing csStoreWithMatrix "data" "09" "test" 1 [[1]]
        [[5]] = .ok (compressInputs 1 1 [[2]] [[5]], [[2]], 1,
          csStoreWithMatrix) :=
  ⟨by decide,
   (C8_test_compression_requires_artifact [] "data" "09" 1 [[1]]
      [[5]]).1 (by decide),
   by decide,
   (C8_test_compression_requires_artifact csStoreWithMatrix "data" "09" 1
      [[1]] [[5]]).2 [[2]] (by decide)⟩

/-- C10: constructing from a pre-built fold bundle (data argument not
None) still requires -inputs.npz and -targets.npz to exist at the path
derived from data_dir, which_year and which_set: _validate_inputs runs
before the bundle branch, so construction fails with the missing-file
assertion even though the bundle branch never reads those files; when the
two files exist the construction succeeds and returns exactly the bundle,
whatever the stored file contents. -/
theorem C10_bundle_still_validates_files (fs : List (String × FileBlob))
    (csStore : List (String × List (List Int)))
    (dataDir whichSet whichYear : String) (fraction : ℚ)
    (upm ucs : Bool) (fm : List (List Int)) (d : FoldData)
    (hset : whichSet = "train" ∨ whichSet = "test")
    (hyr : whichYear = "09" ∨ whichYear = "15") :
    ((fsLookup fs (dataDir ++ "/assist" ++ whichYear ++ "-" ++ whichSet ++
        "-inputs.npz") = none ∨
      fsLookup fs (dataDir ++ "/assist" ++ whichYear ++ "-" ++ whichSet ++
        "-targets.npz") = none) →
      assistInitData fs csStore dataDir whichSet whichYear fraction upm ucs
        fm (some d) = .error "AssertionError")
    ∧ (fsLookup fs (dataDir ++ "/assist" ++ whichYear ++ "-" ++ whichSet ++
        "-inputs.npz") ≠ none →
       fsLookup fs (dataDir ++ "/assist" ++ whichYear ++ "-" ++ whichSet ++
        "-targets.npz") ≠ none →
      assistInitData fs csStore dataDir whichSet whichYear fraction upm ucs
        fm (some d) = .ok d) := by
  have hv1 : ¬¬ (whichSet = "train" ∨ whichSet = "test") :=
    not_not_intro hset
  have hv2 : ¬¬ (whichYear = "09" ∨ whichYear = "15") := not_not_intro hyr
  constructor
  · intro h
    have hval : validateInputs fs whichSet whichYear
        (dataDir ++ "/assist" ++ whichYear ++ "-" ++ whichSet) =
        .error "AssertionError" := by
      unfold validateInputs
      rw [if_neg hv1, if_neg hv2]
      rcases h with h | h
      · rw [if_pos (by simp [h])]
      · by_cases h1 : (fsLookup fs ((dataDir ++ "/assist" ++ whichYear ++
            "-" ++ whichSet) ++ "-inputs.npz")).isNone
        · rw [if_pos h1]
        · rw [if_neg h1, if_pos (by simp [show fsLookup fs ((dataDir ++
            "/assist" ++ whichYear ++ "-" ++ whichSet) ++
            "-targets.npz") = none from by
              simpa [String.append_assoc] using h])]
    show (validateInputs fs whichSet whichYear
        (dataDir ++ "/assist" ++ whichYear ++ "-" ++ whichSet) >>=
        fun _ => _) = _
    rw [hval]
    rfl
  · intro h1 h2
    have hval : validateInputs fs whichSet whichYear
        (dataDir ++ "/assist" ++ whichYear ++ "-" ++ whichSet) =
        .ok () := by
      unfold validateInputs
      rw [if_neg hv1, if_neg hv2,
        if_neg (by simpa [String.append_assoc, Option.isNone_iff_eq_none]
          using h1),
        if_neg (by simpa [String.append_assoc, Option.isNone_iff_eq_none]
          using h2)]
    show (validateInputs fs whichSet whichYear
        (dataDir ++ "/assist" ++ whichYear ++ "-" ++ whichSet) >>=
        fun _ => _) = _
    rw [hval]
    rfl

theorem C10_bundle_still_validates_files_witness :
    ("train" = "train" ∨ "train" = "test")
    ∧ ("09" = "09" ∨ "09" = "15")
    ∧ assistInitData [] [] "dir" "train" "09" 1 false false []
        (some bundleA) = .error "AssertionError"
    ∧ assistInitData c10Store [] "dir" "train" "09" 1 false false []
        (some bundleA) = .ok bundleA :=
  ⟨Or.inl rfl, Or.inl rfl,
   (C10_bundle_still_validates_files [] [] "dir" "train" "09" 1 false
      false [] bundleA (Or.inl rfl) (Or.inl rfl)).1 (Or.inl (by decide)),
   (C10_bundle_still_validates_files c10Store [] "dir" "train" "09" 1
      false false [] bundleA (Or.inl rfl) (Or.inl rfl)).2 (by decide)
     (by decide)⟩

theorem rowNonzero_zeroRow (d : Nat) : rowNonzero (zeroRow d) = false := by
  rw [rowNonzero, zeroRow, Bool.eq_false_iff]
  intro h
  rw [List.any_eq_true] at h
  obtain ⟨x, hx, hxx⟩ := h
  rw [List.mem_replicate] at hx
  rw [hx.2] at hxx
  simp at hxx

theorem filter_groupNonzero_nil {t : Nat} (ht : t ≠ 0)
    (rows : List (List Int)) (h : ∀ r ∈ rows, rowNonzero r = false) :
    (chunkList t rows).filter groupNonzero = [] := by
  rw [List.filter_eq_nil_iff]
  intro g hg hgz
  rw [groupNonzero, List.any_eq_true] at hgz
  obtain ⟨r, hr, hrnz⟩ := hgz
  rw [h r (mem_of_mem_chunkList ht hg r hr)] at hrnz
  exact Bool.false_ne_true hrnz

theorem filter_groupNonzero_count {t : Nat} (ht : t ≠ 0) :
    ∀ rows : List (List Int), ∀ m : Nat, m ≤ rows.length →
      (∀ j, j < rows.length →
        (rowNonzero (rows.getD j []) = true ↔ j < m)) →
      ((chunkList t rows).filter groupNonzero).length = (m + t - 1) / t := by
  apply list_strong_induction
  intro rows ih m hm hpv
  cases rows with
  | nil =>
    rw [chunkList_nil]
    simp only [List.length_nil] at hm
    have hm0 : m = 0 := by omega
    subst hm0
    rw [List.filter_nil, List.length_nil,
      show (0 + t - 1) / t = 0 from Nat.div_eq_of_lt (by omega)]
  | cons x xs =>
    by_cases hm0 : m = 0
    · subst hm0
      rw [filter_groupNonzero_nil ht _ ?_]
      · rw [List.length_nil,
          show (0 + t - 1) / t = 0 from Nat.div_eq_of_lt (by omega)]
      · intro r hr
        rw [List.mem_iff_getElem] at hr
        obtain ⟨j, hj, rfl⟩ := hr
        have hj' := hpv j hj
        rw [List.getD_eq_getElem _ _ hj] at hj'
        cases hb : rowNonzero ((x :: xs)[j]) with
        | false => rfl
        | true => exact absurd (hj'.mp hb) (by omega)
    · rw [chunkList_cons ht]
      have hx : rowNonzero x = true := by
        have h0 := hpv 0 (by simp)
        simpa using h0.mpr (by omega)
      have hg0 : groupNonzero ((x :: xs).take t) = true := by
        rw [groupNonzero, List.any_eq_true]
        refine ⟨x, ?_, hx⟩
        obtain ⟨t', rfl⟩ : ∃ t', t = t' + 1 := ⟨t - 1, by omega⟩
        rw [List.take_succ_cons]
        simp
      rw [List.filter_cons_of_pos hg0, List.length_cons]
      have hdroplen : ((x :: xs).drop t).length = xs.length + 1 - t := by
        simp
      have ihc := ih ((x :: xs).drop t) (by simp; omega) (m - t)
        (by simp only [List.length_cons] at hm; omega) ?_
      · rw [ihc]
        exact ceil_div_step m t ht (by omega)
      · intro j hj
        rw [hdroplen] at hj
        have hj2 : t + j < (x :: xs).length := by
          simp only [List.length_cons]
          omega
        have hpj := hpv (t + j) hj2
        rw [List.getD_eq_getElem?_getD, List.getElem?_drop,
          ← List.getD_eq_getElem?_getD]
        constructor
        · intro hrz
          have := hpj.mp hrz
          omega
        · intro hjm
          exact hpj.mpr (by omega)

theorem rowGroups_retained_count {maxNumAns finalDim t m : Nat}
    (ht : t ≠ 0) (hd : finalDim ≠ 0) (hm : m ≤ maxNumAns)
    (flat : List Int) (hv : prefixValid maxNumAns finalDim m flat) :
    ((rowGroups maxNumAns finalDim t flat).filter groupNonzero).length =
      (m + t - 1) / t := by
  obtain ⟨hlen, hpv⟩ := hv
  have hrows : (chunkList finalDim flat).length = maxNumAns := by
    rw [length_chunkList hd, hlen]
    have h1 : maxNumAns * finalDim + finalDim - 1 =
        finalDim * maxNumAns + (finalDim - 1) := by
      rw [Nat.mul_comm]
      omega
    rw [h1, Nat.mul_add_div (by omega), Nat.div_eq_of_lt (by omega)]
    omega
  rw [rowGroups]
  apply filter_groupNonzero_count ht
  · simp only [List.length_append, hrows, List.length_replicate]
    omega
  · intro j hj
    simp only [List.length_append, hrows, List.length_replicate] at hj
    by_cases hjm : j < maxNumAns
    · rw [List.getD_append _ _ _ _ (by rw [hrows]; exact hjm)]
      exact hpv j hjm
    · rw [List.getD_append_right _ _ _ _ (by rw [hrows]; omega)]
      have hrep : (List.replicate (t - maxNumAns % t)
          (zeroRow finalDim)).getD
          (j - (chunkList finalDim flat).length) [] = zeroRow finalDim := by
        have hb : j - (chunkList finalDim flat).length <
            (List.replicate (t - maxNumAns % t)
              (zeroRow finalDim)).length := by
          rw [hrows, List.length_replicate]
          omega
        rw [List.getD_eq_getElem _ _ hb, List.getElem_replicate]
      rw [hrep, rowNonzero_zeroRow]
      constructor
      · intro h
        exact absurd h (by simp)
      · intro h
        exact absurd h (by omega)

theorem flatMap_length_congr {α β γ δ : Type} :
    ∀ (xs : List α) (ys : List β) (f : α → List γ) (g : β → List δ),
      xs.length = ys.length →
      (∀ i (h1 : i < xs.length) (h2 : i < ys.length),
        (f xs[i]).length = (g ys[i]).length) →
      (xs.flatMap f).length = (ys.flatMap g).length := by
  intro xs
  induction xs with
  | nil =>
    intro ys f g hlen _
    have hys : ys = [] :=
      List.eq_nil_of_length_eq_zero (by simpa using hlen.symm)
    subst hys
    rfl
  | cons x xs ih =>
    intro ys f g hlen hi
    cases ys with
    | nil => simp at hlen
    | cons y ys =>
      simp only [List.flatMap_cons, List.length_append]
      have h0 := hi 0 (by simp) (by simp)
      simp only [List.getElem_cons_zero] at h0
      rw [h0, ih ys f g (by simpa using hlen) ?_]
      intro i h1 h2
      have hs := hi (i + 1) (by simpa using h1) (by simpa using h2)
      simpa only [List.getElem_cons_succ] using hs

theorem rowGroups_filter_ne_nil {maxNumAns finalDim t m : Nat}
    (ht : t ≠ 0) (hd : finalDim ≠ 0) (hm : m ≤ maxNumAns) (hm1 : 1 ≤ m)
    (flat : List Int) (hv : prefixValid maxNumAns finalDim m flat) :
    (rowGroups maxNumAns finalDim t flat).filter groupNonzero ≠ [] := by
  apply List.ne_nil_of_length_pos
  rw [rowGroups_retained_count ht hd hm flat hv]
  have h1 : 1 ≤ (m + t - 1) / t := by
    rw [Nat.le_div_iff_mul_le (by omega)]
    omega
  omega

theorem truncation_alignment (maxNumAns encodingDim maxProbSetId
    threshold : Nat) (inputs targetIds targets : List (List Int))
    (ht : min maxNumAns threshold ≠ 0)
    (he : encodingDim ≠ 0) (hp : maxProbSetId ≠ 0)
    (hinlen : inputs.length = targets.length)
    (hidlen : targetIds.length = targets.length)
    (hne : targets ≠ [])
    (hm1 : ∀ i (h : i < targets.length), 1 ≤ targets[i].length)
    (hvin : ∀ i (h1 : i < inputs.length) (h2 : i < targets.length),
      targets[i].length ≤ maxNumAns ∧
      prefixValid maxNumAns encodingDim targets[i].length inputs[i])
    (hvid : ∀ i (h1 : i < targetIds.length) (h2 : i < targets.length),
      targets[i].length ≤ maxNumAns ∧
      prefixValid maxNumAns maxProbSetId targets[i].length targetIds[i]) :
    ∃ res, truncateSequences maxNumAns encodingDim maxProbSetId inputs
        targetIds targets threshold = .ok res
      ∧ res.1.length = res.2.2.1.length
      ∧ res.2.1.length = res.2.2.1.length := by
  have htglen : 0 < targets.length := List.length_pos.mpr hne
  have hinne : inputs ≠ [] :=
    List.ne_nil_of_length_pos (by omega)
  have hidne : targetIds ≠ [] :=
    List.ne_nil_of_length_pos (by omega)
  have hstudent_in : ∀ i (h1 : i < inputs.length) (h2 : i < targets.length),
      (rowGroups maxNumAns encodingDim (min maxNumAns threshold)
        inputs[i]).filter groupNonzero ≠ [] := by
    intro i h1 h2
    obtain ⟨hmle, hpv⟩ := hvin i h1 h2
    exact rowGroups_filter_ne_nil ht he hmle (hm1 i h2) inputs[i] hpv
  have hstudent_id : ∀ i (h1 : i < targetIds.length)
      (h2 : i < targets.length),
      (rowGroups maxNumAns maxProbSetId (min maxNumAns threshold)
        targetIds[i]).filter groupNonzero ≠ [] := by
    intro i h1 h2
    obtain ⟨hmle, hpv⟩ := hvid i h1 h2
    exact rowGroups_filter_ne_nil ht hp hmle (hm1 i h2) targetIds[i] hpv
  have hbin : ∀ blk ∈ chunkList 1000 inputs,
      (blk.flatMap (rowGroups maxNumAns encodingDim
        (min maxNumAns threshold))).filter groupNonzero ≠ [] := by
    intro blk hblk
    have hblkne : blk ≠ [] :=
      (chunkList_chunk_bounds (by omega) inputs blk hblk).2
    obtain ⟨r, hr⟩ := List.exists_mem_of_ne_nil blk hblkne
    have hrin : r ∈ inputs := mem_of_mem_chunkList (by omega) hblk r hr
    rw [List.mem_iff_getElem] at hrin
    obtain ⟨i, hi, hreq⟩ := hrin
    rw [filter_flatMap]
    intro hnil
    rw [List.flatMap_eq_nil_iff] at hnil
    have hnr := hnil r hr
    rw [← hreq] at hnr
    exact hstudent_in i hi (by omega) hnr
  have hbid : ∀ blk ∈ chunkList 1000 targetIds,
      (blk.flatMap (rowGroups maxNumAns maxProbSetId
        (min maxNumAns threshold))).filter groupNonzero ≠ [] := by
    intro blk hblk
    have hblkne : blk ≠ [] :=
      (chunkList_chunk_bounds (by omega) targetIds blk hblk).2
    obtain ⟨r, hr⟩ := List.exists_mem_of_ne_nil blk hblkne
    have hrin : r ∈ targetIds := mem_of_mem_chunkList (by omega) hblk r hr
    rw [List.mem_iff_getElem] at hrin
    obtain ⟨i, hi, hreq⟩ := hrin
    rw [filter_flatMap]
    intro hnil
    rw [List.flatMap_eq_nil_iff] at hnil
    have hnr := hnil r hr
    rw [← hreq] at hnr
    exact hstudent_id i hi (by omega) hnr
  have h1 := truncateInputsOrIds_ok maxNumAns encodingDim
    (min maxNumAns threshold) inputs hinne hbin
  have h2 := truncateInputsOrIds_ok maxNumAns maxProbSetId
    (min maxNumAns threshold) targetIds hidne hbid
  refine ⟨(((inputs.flatMap (rowGroups maxNumAns encodingDim
      (min maxNumAns threshold))).filter groupNonzero).map List.flatten,
    ((targetIds.flatMap (rowGroups maxNumAns maxProbSetId
      (min maxNumAns threshold))).filter groupNonzero).map List.flatten,
    truncateTargets (min maxNumAns threshold) targets,
    min maxNumAns threshold), ?_, ?_, ?_⟩
  · simp only [truncateSequences]
    rw [h1, h2]
    rfl
  · show (((inputs.flatMap (rowGroups maxNumAns encodingDim
        (min maxNumAns threshold))).filter groupNonzero).map
        List.flatten).length =
      (truncateTargets (min maxNumAns threshold) targets).length
    rw [List.length_map, filter_flatMap, truncateTargets]
    apply flatMap_length_congr inputs targets _ _ hinlen
    intro i h1 h2
    obtain ⟨hmle, hpv⟩ := hvin i h1 h2
    rw [rowGroups_retained_count ht he hmle inputs[i] hpv,
      length_chunkList ht]
  · show (((targetIds.flatMap (rowGroups maxNumAns maxProbSetId
        (min maxNumAns threshold))).filter groupNonzero).map
        List.flatten).length =
      (truncateTargets (min maxNumAns threshold) targets).length
    rw [List.length_map, filter_flatMap, truncateTargets]
    apply flatMap_length_congr targetIds targets _ _ hidlen
    intro i h1 h2
    obtain ⟨hmle, hpv⟩ := hvid i h1 h2
    rw [rowGroups_retained_count ht hp hmle targetIds[i] hpv,
      length_chunkList ht]

theorem nextPerm_perm {α β : Type} (s : DataProvider α β) (n : Nat)
    (hlen : s.inputs.length = n)
    (hrng : ∀ p ∈ s.rng, p.Perm (List.range n)) :
    s.nextPerm.Perm (List.range n) := by
  unfold DataProvider.nextPerm
  cases h : s.rng with
  | nil =>
    rw [List.headD_nil, hlen]
  | cons p ps =>
    rw [List.headD_cons]
    exact hrng p (by rw [h]; simp)

theorem assist_shuffle_lengths (s : ASSISTDataProvider) (n : Nat)
    (hin : s.inputs.length = n) (htg : s.targets.length = n)
    (hid : s.targetIds.length = n)
    (hrng : ∀ p ∈ s.rng, p.Perm (List.range n)) :
    s.shuffle.inputs.length = n ∧ s.shuffle.targets.length = n
    ∧ s.shuffle.targetIds.length = n := by
  have hperm : s.nextPerm.Perm (List.range n) :=
    nextPerm_perm s.toDataProvider n hin hrng
  have hb : ∀ i ∈ s.nextPerm, i < n := mem_lt_of_perm_range hperm
  have hlp : s.nextPerm.length = n := length_of_perm_range hperm
  refine ⟨?_, ?_, ?_⟩
  · show (applyPerm s.nextPerm s.inputs).length = n
    rw [length_applyPerm _ _ (by intro i hi; rw [hin]; exact hb i hi), hlp]
  · show (applyPerm s.nextPerm s.targets).length = n
    rw [length_applyPerm _ _ (by intro i hi; rw [htg]; exact hb i hi), hlp]
  · show (applyPerm s.nextPerm s.targetIds).length = n
    rw [length_applyPerm _ _ (by intro i hi; rw [hid]; exact hb i hi), hlp]

theorem assist_newEpoch_lengths (s : ASSISTDataProvider) (n : Nat)
    (hin : s.inputs.length = n) (htg : s.targets.length = n)
    (hid : s.targetIds.length = n)
    (hrng : ∀ p ∈ s.rng, p.Perm (List.range n)) :
    s.newEpoch.inputs.length = n ∧ s.newEpoch.targets.length = n
    ∧ s.newEpoch.targetIds.length = n := by
  unfold ASSISTDataProvider.newEpoch
  by_cases h : s.shuffleOrder
  · rw [if_pos h]
    exact assist_shuffle_lengths { s with currBatch := 0 } n hin htg hid hrng
  · rw [if_neg h]
    exact ⟨hin, htg, hid⟩

theorem argsort_mem_lt {q : List Nat} {n : Nat}
    (hq : q.Perm (List.range n)) : ∀ i ∈ argsort q, i < n := by
  have hql : q.length = n := length_of_perm_range hq
  intro i hi
  simp only [argsort, List.mem_map, List.mem_range] at hi
  obtain ⟨v, hv, rfl⟩ := hi
  have hvq : v ∈ q := hq.mem_iff.mpr (by
    rw [List.mem_range]
    omega)
  have hlt := List.indexOf_lt_length.mpr hvq
  omega

theorem assist_reset_lengths (s : ASSISTDataProvider) (n : Nat)
    (hin : s.inputs.length = n) (htg : s.targets.length = n)
    (hid : s.targetIds.length = n)
    (hord : s.currentOrder.Perm (List.range n))
    (hrng : ∀ p ∈ s.rng, p.Perm (List.range n)) :
    s.reset.inputs.length = n ∧ s.reset.targets.length = n
    ∧ s.reset.targetIds.length = n := by
  have hql : s.currentOrder.length = n := length_of_perm_range hord
  have hargb : ∀ i ∈ argsort s.currentOrder, i < n := argsort_mem_lt hord
  have hargl : (argsort s.currentOrder).length = n := by
    simp [argsort, hql]
  unfold ASSISTDataProvider.reset
  apply assist_newEpoch_lengths
  · show (applyPerm (argsort s.currentOrder) s.inputs).length = n
    rw [length_applyPerm _ _
      (by intro i hi; rw [hin]; exact hargb i hi), hargl]
  · show (applyPerm (argsort s.currentOrder) s.targets).length = n
    rw [length_applyPerm _ _
      (by intro i hi; rw [htg]; exact hargb i hi), hargl]
  · show (applyPerm (argsort s.currentOrder) s.targetIds).length = n
    rw [length_applyPerm _ _
      (by intro i hi; rw [hid]; exact hargb i hi), hargl]
  · show ∀ p ∈ s.rng, p.Perm (List.range n)
    exact hrng

theorem foldStart_succ (n k i : Nat) :
    foldStart n k (i + 1) = foldStart n k i + foldSize n k i := by
  simp only [foldStart, foldSize]
  by_cases h : i < n % k
  · have h1 : min i (n % k) = i := by omega
    have h2 : min (i + 1) (n % k) = i + 1 := by omega
    rw [h1, h2, if_pos h]
    ring
  · have h1 : min i (n % k) = n % k := by omega
    have h2 : min (i + 1) (n % k) = n % k := by omega
    rw [h1, h2, if_neg h]
    ring

theorem foldStart_self (n k : Nat) (hk : k ≠ 0) : foldStart n k k = n := by
  simp only [foldStart]
  have hmod : n % k < k := Nat.mod_lt n (by omega)
  have h1 : min k (n % k) = n % k := by omega
  rw [h1]
  exact Nat.div_add_mod n k

theorem foldStart_mono (n k : Nat) : ∀ i j, i ≤ j →
    foldStart n k i ≤ foldStart n k j := by
  intro i j hij
  induction j with
  | zero =>
    have h0 : i = 0 := by omega
    subst h0
    exact le_refl _
  | succ j ih =>
    by_cases h : i = j + 1
    · subst h
      exact le_refl _
    · have hle := ih (by omega)
      rw [foldStart_succ]
      omega

theorem valIndices_lt (n k i : Nat) (hk : k ≠ 0) (hik : i < k) :
    ∀ r ∈ valIndices n k i, r < n := by
  intro r hr
  rw [valIndices, List.mem_range'] at hr
  obtain ⟨j, hj, rfl⟩ := hr
  have h1 := foldStart_succ n k i
  have h2 : foldStart n k (i + 1) ≤ foldStart n k k :=
    foldStart_mono n k _ _ (by omega)
  rw [foldStart_self n k hk] at h2
  omega

/-- C9 counterexample: truncation filters input chunks and target_ids
chunks independently, so an initially row-aligned two-student dataset
(both input blocks nonzero, the second student's id block all-zero)
completes truncate_sequences without any error — the one 1000-row block
retains two input chunks and one id chunk, so no reshape(0, -1)
ValueError — yet returns 2 input rows, 1 target_ids row and 2 targets
rows: the row-alignment invariant inputs.shape[0] == len(targets) ==
target_ids.shape[0] does not survive the truncation operation. -/
theorem C9_counterexample :
    truncateSequences 1 1 1 [[1], [1]] [[1], [0]] [[5], [7]] 1 =
      .ok ([[1], [1]], [[1]], [[5], [7]], 1)
    ∧ ([[1], [1]] : List (List Int)).length ≠
      ([[1]] : List (List Int)).length :=
  ⟨rfl, by decide⟩

/-- C9 amended: shuffle and reset carry target_ids through the same
permutation as inputs and targets and preserve the common row count (for
the valid permutations a numpy RandomState produces); reduce_data slices
the three arrays identically; the fold selections of _get_k_folds index
the three arrays with the same index lists and stay aligned in every
fold; truncation, however, preserves the row-alignment invariant only
under the data well-formedness condition that the dataset is nonempty,
every student has at least one valid answer, and each student's inputs
and target_ids blocks have nonzero answer rows exactly at the
valid-answer positions (their count equal to the student's target count,
at most max_num_ans); under that condition truncation completes without
ValueError and the three outputs have equal row counts.  The source
filters input and id chunks independently, so without that condition
alignment can break. -/
theorem C9_alignment_preservation (s : ASSISTDataProvider) (n : Nat)
    (hin : s.inputs.length = n) (htg : s.targets.length = n)
    (hid : s.targetIds.length = n)
    (hord : s.currentOrder.Perm (List.range n))
    (hrng : ∀ p ∈ s.rng, p.Perm (List.range n)) :
    (s.shuffle.inputs.length = n ∧ s.shuffle.targets.length = n
      ∧ s.shuffle.targetIds.length = n)
    ∧ (s.reset.inputs.length = n ∧ s.reset.targets.length = n
      ∧ s.reset.targetIds.length = n)
    ∧ (∀ (inputs targets targetIds : List (List Int)) (fraction : ℚ),
        inputs.length = targets.length →
        targetIds.length = targets.length →
        (reduceData inputs targets targetIds fraction).1.length =
          (reduceData inputs targets targetIds fraction).2.1.length
        ∧ (reduceData inputs targets targetIds fraction).2.1.length =
          (reduceData inputs targets targetIds fraction).2.2.length)
    ∧ (∀ k : Nat, k ≠ 0 → ∀ inputs targets targetIds : List (List Int),
        inputs.length = n → targets.length = n → targetIds.length = n →
        ∀ sel ∈ kFoldSelections k inputs targets targetIds,
          (sel.1.1.length = sel.1.2.1.length
            ∧ sel.1.2.1.length = sel.1.2.2.length)
          ∧ (sel.2.1.length = sel.2.2.1.length
            ∧ sel.2.2.1.length = sel.2.2.2.length))
    ∧ (∀ (maxNumAns encodingDim maxProbSetId threshold : Nat)
        (inputs targetIds targets : List (List Int)),
        min maxNumAns threshold ≠ 0 → encodingDim ≠ 0 →
        maxProbSetId ≠ 0 →
        inputs.length = targets.length →
        targetIds.length = targets.length →
        targets ≠ [] →
        (∀ i (h : i < targets.length), 1 ≤ targets[i].length) →
        (∀ i (h1 : i < inputs.length) (h2 : i < targets.length),
          targets[i].length ≤ maxNumAns ∧
          prefixValid maxNumAns encodingDim targets[i].length inputs[i]) →
        (∀ i (h1 : i < targetIds.length) (h2 : i < targets.length),
          targets[i].length ≤ maxNumAns ∧
          prefixValid maxNumAns maxProbSetId targets[i].length
            targetIds[i]) →
        ∃ res, truncateSequences maxNumAns encodingDim maxProbSetId
            inputs targetIds targets threshold = .ok res
          ∧ res.1.length = res.2.2.1.length
          ∧ res.2.1.length = res.2.2.1.length) := by
  refine ⟨assist_shuffle_lengths s n hin htg hid hrng,
    assist_reset_lengths s n hin htg hid hord hrng, ?_, ?_, ?_⟩
  · intro inputs targets targetIds fraction h1 h2
    constructor
    · show (inputs.take _).length = (targets.take _).length
      simp only [List.length_take]
      rw [h1]
    · show (targets.take _).length = (targetIds.take _).length
      simp only [List.length_take]
      rw [h2]
  · intro k hk inputs targets targetIds h1 h2 h3 sel hsel
    rw [kFoldSelections, List.mem_map] at hsel
    obtain ⟨i, hi, rfl⟩ := hsel
    rw [List.mem_range] at hi
    have htb : ∀ r ∈ trainIndices inputs.length k i, r < n := by
      intro r hr
      rw [trainIndices, List.mem_filter, List.mem_range] at hr
      omega
    have hvb : ∀ r ∈ valIndices inputs.length k i, r < n := by
      intro r hr
      have := valIndices_lt inputs.length k i hk hi r hr
      omega
    have hlen3 : ∀ (xs : List (List Int)) (p : List Nat),
        xs.length = n → (∀ r ∈ p, r < n) →
        (applyPerm p xs).length = p.length := by
      intro xs p hxs hb
      exact length_applyPerm p xs (by intro r hr; rw [hxs]; exact hb r hr)
    refine ⟨⟨?_, ?_⟩, ⟨?_, ?_⟩⟩
    · rw [hlen3 inputs _ h1 htb, hlen3 targets _ h2 htb]
    · rw [hlen3 targets _ h2 htb, hlen3 targetIds _ h3 htb]
    · rw [hlen3 inputs _ h1 hvb, hlen3 targets _ h2 hvb]
    · rw [hlen3 targets _ h2 hvb, hlen3 targetIds _ h3 hvb]
  · intro maxNumAns encodingDim maxProbSetId threshold inputs targetIds
      targets ht he hp hinlen hidlen hne hm1 hvin hvid
    exact truncation_alignment maxNumAns encodingDim maxProbSetId
      threshold inputs targetIds targets ht he hp hinlen hidlen hne hm1
      hvin hvid

theorem C9_alignment_preservation_witness :
    assistPermutedDP.inputs.length = 2
    ∧ assistPermutedDP.currentOrder.Perm (List.range 2)
    ∧ (∀ p ∈ assistPermutedDP.rng, p.Perm (List.range 2))
    ∧ ((assistPermutedDP.shuffle.inputs.length = 2
        ∧ assistPermutedDP.shuffle.targets.length = 2
        ∧ assistPermutedDP.shuffle.targetIds.length = 2)
      ∧ (assistPermutedDP.reset.inputs.length = 2
        ∧ assistPermutedDP.reset.targets.length = 2
        ∧ assistPermutedDP.reset.targetIds.length = 2)
      ∧ (∀ (inputs targets targetIds : List (List Int)) (fraction : ℚ),
          inputs.length = targets.length →
          targetIds.length = targets.length →
          (reduceData inputs targets targetIds fraction).1.length =
            (reduceData inputs targets targetIds fraction).2.1.length
          ∧ (reduceData inputs targets targetIds fraction).2.1.length =
            (reduceData inputs targets targetIds fraction).2.2.length)
      ∧ (∀ k : Nat, k ≠ 0 → ∀ inputs targets targetIds : List (List Int),
          inputs.length = 2 → targets.length = 2 → targetIds.length = 2 →
          ∀ sel ∈ kFoldSelections k inputs targets targetIds,
            (sel.1.1.length = sel.1.2.1.length
              ∧ sel.1.2.1.length = sel.1.2.2.length)
            ∧ (sel.2.1.length = sel.2.2.1.length
              ∧ sel.2.2.1.length = sel.2.2.2.length))
      ∧ (∀ (maxNumAns encodingDim maxProbSetId threshold : Nat)
          (inputs targetIds targets : List (List Int)),
          min maxNumAns threshold ≠ 0 → encodingDim ≠ 0 →
          maxProbSetId ≠ 0 →
          inputs.length = targets.length →
          targetIds.length = targets.length →
          targets ≠ [] →
          (∀ i (h : i < targets.length), 1 ≤ targets[i].length) →
          (∀ i (h1 : i < inputs.length) (h2 : i < targets.length),
            targets[i].length ≤ maxNumAns ∧
            prefixValid maxNumAns encodingDim targets[i].length
              inputs[i]) →
          (∀ i (h1 : i < targetIds.length) (h2 : i < targets.length),
            targets[i].length ≤ maxNumAns ∧
            prefixValid maxNumAns maxProbSetId targets[i].length
              targetIds[i]) →
          ∃ res, truncateSequences maxNumAns encodingDim maxProbSetId
              inputs targetIds targets threshold = .ok res
            ∧ res.1.length = res.2.2.1.length
            ∧ res.2.1.length = res.2.2.1.length)) :=
  ⟨by decide, by decide, by decide,
   C9_alignment_preservation assistPermutedDP 2 (by decide) (by decide)
     (by decide) (by decide) (by decide)⟩

end DKT
